import Mathlib

/-!
Verification development for the yakaa HTTP `Agent` connection pool
(`src/http.js`).  The pool keeps, per destination key, a list of busy
sockets (`this.sockets`), a list of free sockets (`this.freeSockets`) and a
FIFO queue of waiting requests (`this.requests`), all stored in plain JS
objects indexed by the destination name.  We embed those objects as
association lists with JS semantics (an entry is deleted with `delete`,
lookups of missing keys yield `undefined`, modelled as `none`), sockets and
requests as numeric identifiers, and each handler of the source as a pure
state-transition function.  Asynchronous callbacks (socket `free`, `close`,
`agentRemove`, `tunnelError` events and connector completions) are modelled
as atomically processed events of a labelled transition system; the
uncaught JS `TypeError` raised by `removeSocket`'s replacement-failure
callback is modelled as the `Except.error` result of the corresponding
function.
-/

namespace Yakaa

/-! ## Association lists with JS object semantics -/

abbrev Key := String

/-- Lookup of `m[k]`; `none` plays the role of `undefined`. -/
def aget {κ α : Type} [DecidableEq κ] : List (κ × α) → κ → Option α
  | [], _ => none
  | (k2, v) :: rest, k => if k2 = k then some v else aget rest k

/-- Assignment `m[k] = v`: replace the binding in place, or append it. -/
def aset {κ α : Type} [DecidableEq κ] : List (κ × α) → κ → α → List (κ × α)
  | [], k, v => [(k, v)]
  | (k2, v2) :: rest, k, v =>
    if k2 = k then (k2, v) :: rest else (k2, v2) :: aset rest k v

/-- Deletion `delete m[k]`. -/
def adel {κ α : Type} [DecidableEq κ] : List (κ × α) → κ → List (κ × α)
  | [], _ => []
  | (k2, v) :: rest, k => if k2 = k then adel rest k else (k2, v) :: adel rest k

/-- Convenience lookup of list-valued entries: missing key gives `[]`. -/
def jgetL (m : List (Key × List Nat)) (k : Key) : List Nat :=
  (aget m k).getD []

/-- Push `sid` at the end of the entry for `k` (JS `array.push`). -/
def pushMap (m : List (Key × List Nat)) (k : Key) (sid : Nat) : List (Key × List Nat) :=
  aset m k (jgetL m k ++ [sid])

/-- `removeSocket`'s splice step: remove the first occurrence of `sid` from
the entry for `k`, deleting the entry when it becomes empty (the source
also only deletes when the element was actually found). -/
def spliceMap (m : List (Key × List Nat)) (k : Key) (sid : Nat) : List (Key × List Nat) :=
  match aget m k with
  | none => m
  | some l =>
    if sid ∈ l then
      let l2 := l.erase sid
      if l2 = [] then adel m k else aset m k l2
    else m

/-- Drop the oldest entry of a FIFO queue entry (`shift`), deleting the
entry when it becomes empty (the "don't leak" checks of the source). -/
def dropOldest (m : List (Key × List Nat)) (k : Key) : List (Key × List Nat) :=
  match jgetL m k with
  | [] => m
  | _ :: rest => if rest = [] then adel m k else aset m k rest

/-! ## Pool configuration

`maxSockets` is `options.maxSockets || Agent.defaultMaxSockets` with the
default `Infinity`; we model the possibly-infinite bound as `Option Nat`
(`none` = `Infinity`).  Because `0` is falsy in JS, neither `maxSockets = 0`
nor `maxFreeSockets = 0` can ever be configured; `ValidCfg` records this. -/

structure Config where
  maxSockets : Option Nat
  maxFreeSockets : Nat
  keepAlive : Bool
deriving DecidableEq, Repr

def ValidCfg (cfg : Config) : Prop :=
  cfg.maxSockets ≠ some 0 ∧ cfg.maxFreeSockets ≠ 0

instance (cfg : Config) : Decidable (ValidCfg cfg) := by
  unfold ValidCfg; infer_instance

/-- JS comparison `n < maxSockets` where `maxSockets` may be `Infinity`. -/
def ltMax (n : Nat) : Option Nat → Bool
  | none => true
  | some m => n < m

/-- JS comparison `n > maxSockets` where `maxSockets` may be `Infinity`. -/
def gtMax (n : Nat) : Option Nat → Bool
  | none => false
  | some m => m < n

/-- The bound `n ≤ maxSockets` (trivially true for `Infinity`). -/
def withinMax (n : Nat) : Option Nat → Prop
  | none => True
  | some m => n ≤ m

instance (n : Nat) (o : Option Nat) : Decidable (withinMax n o) := by
  cases o <;> unfold withinMax <;> infer_instance

/-! ## Destination keys: `Agent.prototype.getName` -/

/-- Request options relevant to `getName`, plus two unrelated fields so
that key computation can be shown independent of them.  `none` stands for
a JS-falsy field (absent, `null`, `undefined` or empty). -/
structure ReqOptions where
  host : Option String
  port : Option String
  localAddress : Option String
  path : Option String
  keepAliveMsecs : Option Nat
deriving DecidableEq, Repr

/-- Embedding of `Agent.prototype.getName` (src/http.js lines 178-194). -/
def getName (o : ReqOptions) : String :=
  (match o.host with
   | some h => h
   | none => "localhost") ++ ":" ++
  (match o.port with
   | some p => p
   | none => "") ++ ":" ++
  (match o.localAddress with
   | some a => a
   | none => "") ++ ":"

/-! ## Socket metadata

Each socket is identified by a numeric id.  `SockInfo` carries the fields
of the socket object that the pool reads or writes: `destroyed`, the
attached `_httpMessage` (reduced to its `shouldKeepAlive` flag), and which
of the four pool-installed event hooks of `_afterCreateSocket` are still
attached.  `key` is the destination name captured by those hook closures,
`closed` records that the one-shot `close` event has already fired, and
`held` is the ownership ghost flag: `true` while a consumer holds the
socket between assignment (`req.onSocket`) and release. -/

structure SockInfo where
  key : Key
  destroyed : Bool
  closed : Bool
  held : Bool
  httpMessage : Option Bool
  hookedFree : Bool
  hookedClose : Bool
  hookedTunnelError : Bool
  hookedAgentRemove : Bool
deriving DecidableEq, Repr

/-- Hook state of a socket fresh out of `_afterCreateSocket`. -/
def freshInfo (k : Key) : SockInfo :=
  { key := k, destroyed := false, closed := false, held := false,
    httpMessage := none, hookedFree := true, hookedClose := true,
    hookedTunnelError := true, hookedAgentRemove := true }

/-- Full pool state: the agent's three per-destination registries plus the
socket table and fresh-id counters for sockets and requests. -/
structure SysState where
  sockets : List (Key × List Nat)
  freeSockets : List (Key × List Nat)
  requests : List (Key × List Nat)
  info : List (Nat × SockInfo)
  nextSid : Nat
  nextRid : Nat
deriving DecidableEq, Repr

def initState : SysState :=
  { sockets := [], freeSockets := [], requests := [], info := [],
    nextSid := 0, nextRid := 0 }

def updInfo : List (Nat × SockInfo) → Nat → (SockInfo → SockInfo) →
    List (Nat × SockInfo)
  | [], _, _ => []
  | (j, i) :: rest, sid, f =>
    if j = sid then (j, f i) :: updInfo rest sid f
    else (j, i) :: updInfo rest sid f

def setHeld (st : SysState) (sid : Nat) (b : Bool) : SysState :=
  { st with info := updInfo st.info sid (fun i => { i with held := b }) }

def setDestroyed (st : SysState) (sid : Nat) (b : Bool) : SysState :=
  { st with info := updInfo st.info sid (fun i => { i with destroyed := b }) }

def setClosed (st : SysState) (sid : Nat) (b : Bool) : SysState :=
  { st with info := updInfo st.info sid (fun i => { i with closed := b }) }

def setMsg (st : SysState) (sid : Nat) (msg : Option Bool) : SysState :=
  { st with info := updInfo st.info sid (fun i => { i with httpMessage := msg }) }

/-! ## `Agent.prototype.removeSocket` (src/http.js lines 338-370)

The splice loop removes the socket from `this.sockets[name]`, and — only
when `s.destroyed` — from `this.freeSockets[name]` too.  If afterwards the
request queue for the name is non-empty, a replacement socket is eagerly
created with `createSocket`.  On success the callback emits `free` on the
new socket, which re-enters the agent's `free` handler; since the new
socket is not destroyed and the queue was just checked non-empty, that
handler dequeues the oldest request and assigns the new socket to it (that
branch is inlined here).  On failure the callback runs
`socket.emit('tunnelError', err)` — but on the failure path `createSocket`
invoked `callback(err)` with no socket argument, so `socket` is
`undefined` and the statement raises an uncaught `TypeError`, modelled as
`Except.error ()`. -/

def removeSocket (st : SysState) (sid : Nat) (sdestroyed : Bool) (k : Key)
    (connOk : Bool) : Except Unit (SysState × Option (Nat × Nat)) :=
  let m1 := spliceMap st.sockets k sid
  let m2 := if sdestroyed then spliceMap st.freeSockets k sid else st.freeSockets
  let st1 : SysState := { st with sockets := m1, freeSockets := m2 }
  match jgetL st1.requests k with
  | [] => .ok (st1, none)
  | r :: _ =>
    if connOk then
      let fresh := st1.nextSid
      let st2 : SysState := { st1 with
        sockets := pushMap st1.sockets k fresh,
        nextSid := fresh + 1,
        info := st1.info ++ [(fresh, freshInfo k)] }
      let st3 := setHeld st2 fresh true
      let st4 : SysState := { st3 with requests := dropOldest st3.requests k }
      .ok (st4, some (r, fresh))
    else
      .error ()

/-! ## The agent's `free` handler (src/http.js lines 89-157) -/

/-- Result of one pass through the `free` handler. -/
inductive RelOutcome where
  | served (rid : Nat)
  | pooled
  | destroyedNoQueue
  | destroyedReplaced (rid sid2 : Nat)
deriving DecidableEq, Repr

/-- The `removeSocket` + `socket.destroy()` exit of the `free` handler
(taken on capacity overflow and for non-keep-alive sockets). -/
def freeDestroyPath (st : SysState) (sid : Nat) (sdestroyed : Bool) (k : Key)
    (connOk : Bool) : Except Unit (SysState × RelOutcome) :=
  match removeSocket st sid sdestroyed k connOk with
  | .error e => .error e
  | .ok (st1, rep) =>
    .ok (setHeld (setDestroyed st1 sid true) sid false,
      match rep with
      | some (r, s2) => .destroyedReplaced r s2
      | none => .destroyedNoQueue)

/-- Embedding of the handler installed by `this.on('free', ...)`.
`sdestroyed` and `msg` are the values of `socket.destroyed` and
`socket._httpMessage` (reduced to `shouldKeepAlive`) when the event is
processed, and `k` is the name computed from the emitted options. -/
def onFree (cfg : Config) (st : SysState) (sid : Nat) (sdestroyed : Bool)
    (msg : Option Bool) (k : Key) (connOk : Bool) :
    Except Unit (SysState × RelOutcome) :=
  if ¬sdestroyed ∧ jgetL st.requests k ≠ [] then
    -- a pending request exists: hand the socket directly to the oldest
    match jgetL st.requests k with
    | [] => .ok (st, .pooled)
    | r :: _ =>
      let st1 := setHeld st sid true
      .ok ({ st1 with requests := dropOldest st1.requests k }, .served r)
  else
    match msg with
    | some ka =>
      if ka ∧ ¬sdestroyed ∧ cfg.keepAlive then
        let free0 := jgetL st.freeSockets k
        let freeLen := free0.length
        let count := freeLen + (jgetL st.sockets k).length
        if gtMax count cfg.maxSockets ∨ freeLen ≥ cfg.maxFreeSockets then
          freeDestroyPath st sid sdestroyed k connOk
        else
          -- pool the socket: `self.freeSockets[name] = freeSockets` happens
          -- before `removeSocket`, the `push` after it (the JS array is
          -- aliased, so the entry ends up as `free0 ++ [sid]`)
          let stA : SysState := { st with freeSockets := aset st.freeSockets k free0 }
          let stB := setMsg (setHeld stA sid false) sid none
          match removeSocket stB sid sdestroyed k connOk with
          | .error e => .error e
          | .ok (stC, _) =>
            .ok ({ stC with freeSockets := aset stC.freeSockets k (free0 ++ [sid]) },
              .pooled)
      else freeDestroyPath st sid sdestroyed k connOk
    | none => freeDestroyPath st sid sdestroyed k connOk

/-! ## `Agent.prototype.addRequest` (src/http.js lines 196-256) -/

inductive AcqOutcome where
  | reused (rid sid : Nat)
  | created (rid sid : Nat)
  | failedReq (rid : Nat)
  | queuedReq (rid : Nat)
deriving DecidableEq, Repr

/-- Embedding of `addRequest`.  The returned `Bool` records whether the
Connector (`createSocket` → `_createConnection`) was invoked; `connOk`
selects the connector outcome (the direct connector always succeeds, the
tunnel connector may call back with an error). -/
def addRequest (cfg : Config) (st : SysState) (k : Key) (connOk : Bool) :
    SysState × AcqOutcome × Bool :=
  let rid := st.nextRid
  let st0 : SysState := { st with nextRid := rid + 1 }
  -- `if (!this.sockets[name]) this.sockets[name] = [];`
  let st1 : SysState := { st0 with
    sockets := if (aget st0.sockets k).isNone then aset st0.sockets k [] else st0.sockets }
  let freeL := jgetL st1.freeSockets k
  let sockLen := freeL.length + (jgetL st1.sockets k).length
  match freeL with
  | s :: rest =>
    -- a free socket exists: shift the oldest, hand it over, mark busy
    let fs := if rest = [] then adel st1.freeSockets k else aset st1.freeSockets k rest
    let st2 : SysState := { st1 with freeSockets := fs }
    let st3 := setHeld st2 s true
    ({ st3 with sockets := pushMap st3.sockets k s }, .reused rid s, false)
  | [] =>
    if ltMax sockLen cfg.maxSockets then
      if connOk then
        -- `createSocket` succeeded: `_afterCreateSocket` pushed the socket
        -- into `this.sockets[name]` and installed the four hooks, then the
        -- callback handed it to the request
        let fresh := st1.nextSid
        let st2 : SysState := { st1 with
          sockets := pushMap st1.sockets k fresh,
          nextSid := fresh + 1,
          info := st1.info ++ [(fresh, freshInfo k)] }
        (setHeld st2 fresh true, .created rid fresh, true)
      else
        -- connector error: `req.emit('error', err); return;` — note that
        -- the entry created by `this.sockets[name] = []` is left behind
        (st1, .failedReq rid, true)
    else
      ({ st1 with requests := pushMap st1.requests k rid }, .queuedReq rid, false)

/-! ## The agent's `tunnelError` handler (src/http.js lines 78-88)

The handler reads `self.requests[name].length` without checking that the
entry exists; a missing entry is `undefined` and the read raises an
uncaught `TypeError` (`Except.error`). -/

def onTunnelErrorAgent (st : SysState) (k : Key) : Except Unit (SysState × Option Nat) :=
  match aget st.requests k with
  | none => .error ()
  | some rs =>
    match rs with
    | [] => .ok (st, none)
    | r :: rest =>
      let reqs := if rest = [] then adel st.requests k else aset st.requests k rest
      .ok ({ st with requests := reqs }, some r)

/-! ## The `agentRemove` hook (src/http.js lines 324-334)

`onRemove` calls `removeSocket` and then detaches the `close`, `free` and
`agentRemove` listeners.  The `tunnelError` listener is not detached. -/

def onAgentRemove (st : SysState) (sid : Nat) (sdestroyed : Bool) (k : Key)
    (connOk : Bool) : Except Unit SysState :=
  match removeSocket st sid sdestroyed k connOk with
  | .error e => .error e
  | .ok (st1, _) =>
    let f : SockInfo → SockInfo := fun i =>
      { i with hookedClose := false, hookedFree := false, hookedAgentRemove := false }
    .ok { st1 with info := updInfo st1.info sid f }

/-! ## `Agent.prototype.destroy` (src/http.js lines 372-381)

`destroy` iterates over `this.freeSockets` and `this.sockets` and calls
`socket.destroy()` on every listed socket.  It does not touch the registry
objects themselves. -/

def trackedSids (st : SysState) : List Nat :=
  (st.freeSockets.map Prod.snd).flatten ++ (st.sockets.map Prod.snd).flatten

/-- Mark every socket of `tr` as destroyed in the socket table. -/
def markDestroyed : List (Nat × SockInfo) → List Nat → List (Nat × SockInfo)
  | [], _ => []
  | (j, i) :: rest, tr =>
    if j ∈ tr then (j, { i with destroyed := true }) :: markDestroyed rest tr
    else (j, i) :: markDestroyed rest tr

def destroyAgent (st : SysState) : SysState :=
  { st with info := markDestroyed st.info (trackedSids st) }

/-! ## The labelled transition system

Events are processed atomically by the single-threaded event loop.
`acquire` is a call of `addRequest`; `finish` is the consumer of a held
socket emitting `free` on it (which the agent observes only while the
`onFree` hook is attached — the consumer attaches its request object to
`socket._httpMessage`, reduced here to the `shouldKeepAlive` flag);
`remoteDestroy` is the underlying transport being destroyed (setting
`socket.destroyed` immediately, with the one-shot `close` event delivered
later as `closeEvt`); `agentRemoveEvt` and `tunnelErrEvt` are the
corresponding socket events; `destroyAll` is `Agent.prototype.destroy`.
`connOk` chooses the outcome of any connector call the event triggers.
`stepFn` returns `none` when the event cannot occur (hook detached,
socket unknown, `close` already delivered, …) or when the handler raises
an uncaught `TypeError`. -/

inductive Op where
  | acquire (k : Key) (connOk : Bool)
  | finish (sid : Nat) (ka : Bool) (connOk : Bool)
  | remoteDestroy (sid : Nat)
  | closeEvt (sid : Nat) (connOk : Bool)
  | agentRemoveEvt (sid : Nat) (connOk : Bool)
  | tunnelErrEvt (sid : Nat)
  | destroyAll
deriving DecidableEq, Repr

def stepFn (cfg : Config) (op : Op) (st : SysState) : Option SysState :=
  match op with
  | .acquire k connOk => some (addRequest cfg st k connOk).1
  | .finish sid ka connOk =>
    match aget st.info sid with
    | some i =>
      if i.hookedFree ∧ i.held then
        let st1 := setMsg st sid (some ka)
        match onFree cfg st1 sid i.destroyed (some ka) i.key connOk with
        | .ok (st2, _) => some st2
        | .error _ => none
      else none
    | none => none
  | .remoteDestroy sid =>
    match aget st.info sid with
    | some i => if i.destroyed then none else some (setDestroyed st sid true)
    | none => none
  | .closeEvt sid connOk =>
    match aget st.info sid with
    | some i =>
      if i.destroyed ∧ ¬i.closed ∧ i.hookedClose then
        match removeSocket (setClosed st sid true) sid true i.key connOk with
        | .ok (st1, _) => some st1
        | .error _ => none
      else none
    | none => none
  | .agentRemoveEvt sid connOk =>
    match aget st.info sid with
    | some i =>
      if i.hookedAgentRemove then
        match onAgentRemove st sid i.destroyed i.key connOk with
        | .ok st1 => some st1
        | .error _ => none
      else none
    | none => none
  | .tunnelErrEvt sid =>
    match aget st.info sid with
    | some i =>
      if i.hookedTunnelError then
        match onTunnelErrorAgent st i.key with
        | .ok (st1, _) => some st1
        | .error _ => none
      else none
    | none => none
  | .destroyAll => some (destroyAgent st)

def runOps (cfg : Config) : List Op → SysState → Option SysState
  | [], st => some st
  | op :: rest, st =>
    match stepFn cfg op st with
    | some st2 => runOps cfg rest st2
    | none => none

/-- States of the pool reachable from the initial (empty) agent state. -/
inductive Reachable (cfg : Config) : SysState → Prop where
  | init : Reachable cfg initState
  | step {st st2 : SysState} (op : Op) :
      Reachable cfg st → stepFn cfg op st = some st2 → Reachable cfg st2

/-! ## Invariants and claim statements -/

/-- No registry object maps a key to an empty collection (the spec's
"no stale empty map entries"). -/
def prunedMap (m : List (Key × List Nat)) : Prop := ∀ p ∈ m, p.2 ≠ []

instance (m : List (Key × List Nat)) : Decidable (prunedMap m) :=
  List.decidableBAll _ m

def pruned (st : SysState) : Prop :=
  prunedMap st.sockets ∧ prunedMap st.freeSockets ∧ prunedMap st.requests

instance (st : SysState) : Decidable (pruned st) := by
  unfold pruned; infer_instance

/-- An `acquire` whose connector attempt fails (only the tunnel connector
can fail; the direct connector is synchronous and always yields a socket). -/
def connectorFailureAcquire : Op → Prop
  | .acquire _ connOk => connOk = false
  | _ => False

instance (op : Op) : Decidable (connectorFailureAcquire op) := by
  cases op <;> unfold connectorFailureAcquire <;> infer_instance

/-- Per-key busy/free lists never share or repeat a socket. -/
def InvA (st : SysState) : Prop :=
  ∀ k, (jgetL st.sockets k ++ jgetL st.freeSockets k).Nodup

/-- Every registered socket is known and filed under its own key. -/
def InvB (st : SysState) : Prop :=
  ∀ k sid, (sid ∈ jgetL st.sockets k ∨ sid ∈ jgetL st.freeSockets k) →
    ∃ i, aget st.info sid = some i ∧ i.key = k

/-- Freshness of the socket id counter. -/
def InvC (st : SysState) : Prop :=
  (∀ k sid, (sid ∈ jgetL st.sockets k ∨ sid ∈ jgetL st.freeSockets k) →
    sid < st.nextSid) ∧
  (∀ sid i, aget st.info sid = some i → sid < st.nextSid)

/-- A socket held by a consumer is never in the free list of its key. -/
def InvD (st : SysState) : Prop :=
  ∀ sid i, aget st.info sid = some i → i.held = true →
    sid ∉ jgetL st.freeSockets i.key

/-- A held, live socket whose `free` hook is attached is in the busy list
of its key. -/
def InvE (st : SysState) : Prop :=
  ∀ sid i, aget st.info sid = some i →
    i.held = true → i.destroyed = false → i.hookedFree = true →
    sid ∈ jgetL st.sockets i.key

def Inv (st : SysState) : Prop := InvA st ∧ InvB st ∧ InvC st ∧ InvD st ∧ InvE st

/-- The per-key capacity bound `|busy| + |free| ≤ maxSockets`. -/
def capOK (cfg : Config) (st : SysState) : Prop :=
  ∀ k, withinMax ((jgetL st.sockets k).length + (jgetL st.freeSockets k).length)
    cfg.maxSockets

/-- A `free`, `close` or `agentRemove` event processed for a socket that is
no longer in the busy list of its key while requests are queued there:
`removeSocket` then creates a replacement without having removed anything. -/
def staleReplacement (st : SysState) (op : Op) : Prop :=
  match op with
  | .finish sid _ _ | .closeEvt sid _ | .agentRemoveEvt sid _ =>
    match aget st.info sid with
    | some i => sid ∉ jgetL st.sockets i.key ∧ jgetL st.requests i.key ≠ []
    | none => False
  | _ => False

/-! ### Claims C2, C3, C6, C7, C8, C9 as stated (used by the refutations) -/

/-- Claim C2 verbatim: at every reachable state, for every key, busy and
free are disjoint and (once a connection exists) `|busy| + |free|` is
bounded by `maxSockets`. -/
def C2stated : Prop :=
  ∀ cfg st, ValidCfg cfg → Reachable cfg st →
    ∀ k, (∀ sid, sid ∈ jgetL st.sockets k → sid ∉ jgetL st.freeSockets k) ∧
      (1 ≤ (jgetL st.sockets k).length + (jgetL st.freeSockets k).length →
        withinMax ((jgetL st.sockets k).length + (jgetL st.freeSockets k).length)
          cfg.maxSockets)

/-- Claim C3 verbatim: every release (`free` event) of a connection whose
destination queue is non-empty hands that very connection to the oldest
queued request, the connection staying busy and never visiting free. -/
def C3stated : Prop :=
  ∀ (cfg : Config) (st : SysState) (sid r : Nat) (rest : List Nat) (k : Key)
    (sdestroyed : Bool) (msg : Option Bool) (connOk : Bool),
    jgetL st.requests k = r :: rest → sid ∈ jgetL st.sockets k →
    ∃ st2, onFree cfg st sid sdestroyed msg k connOk = .ok (st2, .served r) ∧
      sid ∈ jgetL st2.sockets k ∧ sid ∉ jgetL st2.freeSockets k

/-- Claim C6 verbatim: removing a connection absent from both collections
leaves them unchanged, and releasing an already-removed connection leaves
them unchanged. -/
def C6stated : Prop :=
  ∀ (st : SysState) (sid : Nat) (sdestroyed : Bool) (k : Key) (connOk : Bool),
    sid ∉ jgetL st.sockets k → sid ∉ jgetL st.freeSockets k →
    (∃ st2 rep, removeSocket st sid sdestroyed k connOk = .ok (st2, rep) ∧
      st2.sockets = st.sockets ∧ st2.freeSockets = st.freeSockets) ∧
    (∀ cfg msg st3 o, onFree cfg st sid true msg k connOk = .ok (st3, o) →
      st3.sockets = st.sockets ∧ st3.freeSockets = st.freeSockets)

/-- Claim C7 verbatim: every public operation preserves the absence of
stale empty registry entries. -/
def C7stated : Prop :=
  ∀ cfg op st st2, ValidCfg cfg → pruned st → stepFn cfg op st = some st2 →
    pruned st2

/-- Claim C8 verbatim: after `agentRemove` the socket is out of both
collections and all four pool hooks are detached. -/
def C8stated : Prop :=
  ∀ (st : SysState) (sid : Nat) (sdestroyed : Bool) (k : Key) (connOk : Bool)
    (st2 : SysState),
    onAgentRemove st sid sdestroyed k connOk = .ok st2 →
    sid ∉ jgetL st2.sockets k ∧ sid ∉ jgetL st2.freeSockets k ∧
    (aget st2.info sid).map SockInfo.hookedFree ≠ some true ∧
    (aget st2.info sid).map SockInfo.hookedClose ≠ some true ∧
    (aget st2.info sid).map SockInfo.hookedTunnelError ≠ some true ∧
    (aget st2.info sid).map SockInfo.hookedAgentRemove ≠ some true

/-- Claim C9 verbatim: `destroy()` closes every tracked connection and
clears the registry. -/
def C9stated : Prop :=
  ∀ st : SysState,
    (∀ sid i, aget (destroyAgent st).info sid = some i → sid ∈ trackedSids st →
      i.destroyed = true) ∧
    (destroyAgent st).sockets = [] ∧ (destroyAgent st).freeSockets = [] ∧
    (destroyAgent st).requests = []

/-! ### Concrete configurations and states for refutations and witnesses -/

def cfgNone : Config := { maxSockets := none, maxFreeSockets := 256, keepAlive := false }

def cfgOne : Config := { maxSockets := some 1, maxFreeSockets := 256, keepAlive := false }

def cfgFree1 : Config := { maxSockets := none, maxFreeSockets := 1, keepAlive := true }

/-- One request (id 3) queued for key "h", nothing else. -/
def stQueued : SysState :=
  { sockets := [], freeSockets := [], requests := [("h", [3])], info := [],
    nextSid := 5, nextRid := 4 }

/-- Socket 0 busy for "h" (destroyed, still hooked), request 7 queued. -/
def stC3 : SysState :=
  { sockets := [("h", [0])], freeSockets := [], requests := [("h", [7])],
    info := [(0, { freshInfo "h" with held := true, destroyed := true })],
    nextSid := 1, nextRid := 8 }

/-- Request 7 queued for "h"; socket 0 absent from both collections. -/
def stC6 : SysState :=
  { sockets := [], freeSockets := [], requests := [("h", [7])],
    info := [(0, { freshInfo "h" with held := true })], nextSid := 2, nextRid := 8 }

/-- Socket 0 busy for "h", fully hooked, no queue. -/
def stC8 : SysState :=
  { sockets := [("h", [0])], freeSockets := [], requests := [],
    info := [(0, { freshInfo "h" with held := true })], nextSid := 1, nextRid := 1 }

/-- Socket 0 busy for "h". -/
def stC9 : SysState :=
  { sockets := [("h", [0])], freeSockets := [], requests := [],
    info := [(0, { freshInfo "h" with held := true })], nextSid := 1, nextRid := 1 }

/-- Two busy keep-alive sockets for "h" (for the C5 eviction scenario). -/
def stC5 : SysState :=
  { sockets := [("h", [0, 1])], freeSockets := [], requests := [],
    info := [(0, { freshInfo "h" with held := true }),
             (1, { freshInfo "h" with held := true })],
    nextSid := 2, nextRid := 2 }

/-- The trace refuting C2 with `maxSockets = 1`: serve request 0 on socket
0; queue request 1; socket 0 dies and its `close` event spawns replacement
socket 1 for request 1; queue request 2; finally the late `free` event of
the dead socket 0 runs `removeSocket` again, whose replacement branch
creates socket 2 for request 2 — two busy sockets for "h". -/
def c2ops : List Op :=
  [.acquire "h" true, .acquire "h" true, .remoteDestroy 0, .closeEvt 0 true,
   .acquire "h" true, .finish 0 false true]

/-- The state reached by `c2ops` under `cfgOne`: key `"h"` carries two busy
sockets although `maxSockets = 1`. -/
def c2final : SysState :=
  { sockets := [("h", [1, 2])],
    freeSockets := [],
    requests := [],
    info := [(0, { freshInfo "h" with destroyed := true, closed := true, httpMessage := some false }),
      (1, { freshInfo "h" with held := true }),
      (2, { freshInfo "h" with held := true })],
    nextSid := 3,
    nextRid := 3 }

def c5ops : List Op :=
  [.acquire "h" true, .acquire "h" true, .finish 0 true true, .finish 1 true true]

/-- Socket 0 busy (live, held) for "h", request 7 queued. -/
def stBusyQ : SysState :=
  { sockets := [("h", [0])], freeSockets := [], requests := [("h", [7])],
    info := [(0, { freshInfo "h" with held := true })], nextSid := 1, nextRid := 8 }

/-- Computed result state of `removeSocket stC6 0 false "h" true`. -/
def stC6post : SysState :=
  { sockets := [("h", [2])], freeSockets := [], requests := [],
    info := [(0, { freshInfo "h" with held := true }),
             (2, { freshInfo "h" with held := true })],
    nextSid := 3, nextRid := 8 }

/-- Hook state of socket 0 after `agentRemove` processing. -/
def infoC8post : SockInfo :=
  { key := "h", destroyed := false, closed := false, held := true,
    httpMessage := none, hookedFree := false, hookedClose := false,
    hookedTunnelError := true, hookedAgentRemove := false }

/-- Computed result state of `onAgentRemove stC8 0 false "h" true`. -/
def stC8post : SysState :=
  { sockets := [], freeSockets := [], requests := [],
    info := [(0, infoC8post)], nextSid := 1, nextRid := 1 }

/-- Computed result state of `onFree cfgNone stC3 0 true (some false) "h" true`. -/
def stC3post : SysState :=
  { sockets := [("h", [1])], freeSockets := [], requests := [],
    info := [(0, { freshInfo "h" with destroyed := true }),
             (1, { freshInfo "h" with held := true })],
    nextSid := 2, nextRid := 8 }

end Yakaa

namespace Yakaa

/-! ## Basic lemmas about the JS-object maps -/

@[simp] theorem aget_nil {κ α : Type} [DecidableEq κ] (k : κ) :
    aget ([] : List (κ × α)) k = none := rfl

@[simp] theorem aget_aset_self {κ α : Type} [DecidableEq κ]
    (m : List (κ × α)) (k : κ) (v : α) : aget (aset m k v) k = some v := by
  induction m with
  | nil => simp [aget, aset]
  | cons p rest ih =>
    obtain ⟨k2, v2⟩ := p
    by_cases h : k2 = k <;> simp [aget, aset, h, ih]

@[simp] theorem aget_aset_ne {κ α : Type} [DecidableEq κ]
    (m : List (κ × α)) (k k2 : κ) (v : α) (h : k2 ≠ k) :
    aget (aset m k v) k2 = aget m k2 := by
  have hk : k ≠ k2 := Ne.symm h
  induction m with
  | nil => simp [aget, aset, hk]
  | cons p rest ih =>
    obtain ⟨k3, v3⟩ := p
    by_cases h3 : k3 = k
    · subst h3
      simp [aget, aset, hk]
    · simp [aget, aset, h3, ih]

@[simp] theorem aget_adel_self {κ α : Type} [DecidableEq κ]
    (m : List (κ × α)) (k : κ) : aget (adel m k) k = none := by
  induction m with
  | nil => rfl
  | cons p rest ih =>
    obtain ⟨k2, v2⟩ := p
    by_cases h : k2 = k <;> simp [adel, aget, h, ih]

@[simp] theorem aget_adel_ne {κ α : Type} [DecidableEq κ]
    (m : List (κ × α)) (k k2 : κ) (h : k2 ≠ k) :
    aget (adel m k) k2 = aget m k2 := by
  have hk : k ≠ k2 := Ne.symm h
  induction m with
  | nil => rfl
  | cons p rest ih =>
    obtain ⟨k3, v3⟩ := p
    by_cases h3 : k3 = k
    · subst h3
      simp [adel, aget, hk, ih]
    · simp [adel, aget, h3, ih]

@[simp] theorem jgetL_nil (k : Key) : jgetL [] k = [] := rfl

theorem jgetL_aset_self (m : List (Key × List Nat)) (k : Key) (l : List Nat) :
    jgetL (aset m k l) k = l := by simp [jgetL]

theorem jgetL_aset_ne (m : List (Key × List Nat)) (k k2 : Key) (l : List Nat)
    (h : k2 ≠ k) : jgetL (aset m k l) k2 = jgetL m k2 := by simp [jgetL, h]

theorem jgetL_adel_self (m : List (Key × List Nat)) (k : Key) :
    jgetL (adel m k) k = [] := by simp [jgetL]

theorem jgetL_adel_ne (m : List (Key × List Nat)) (k k2 : Key) (h : k2 ≠ k) :
    jgetL (adel m k) k2 = jgetL m k2 := by simp [jgetL, h]

theorem jgetL_pushMap_self (m : List (Key × List Nat)) (k : Key) (sid : Nat) :
    jgetL (pushMap m k sid) k = jgetL m k ++ [sid] := by
  simp [pushMap, jgetL_aset_self]

theorem jgetL_pushMap_ne (m : List (Key × List Nat)) (k k2 : Key) (sid : Nat)
    (h : k2 ≠ k) : jgetL (pushMap m k sid) k2 = jgetL m k2 := by
  simp [pushMap, jgetL_aset_ne, h]

theorem jgetL_spliceMap_self (m : List (Key × List Nat)) (k : Key) (sid : Nat) :
    jgetL (spliceMap m k sid) k = (jgetL m k).erase sid := by
  unfold spliceMap
  cases hm : aget m k with
  | none => simp [jgetL, hm]
  | some l =>
    by_cases hmem : sid ∈ l
    · by_cases hnil : l.erase sid = []
      · simp [hmem, hnil, jgetL, hm]
      · simp [hmem, hnil, jgetL, hm]
    · simp [hmem, jgetL, hm, List.erase_of_not_mem hmem]

theorem jgetL_spliceMap_ne (m : List (Key × List Nat)) (k k2 : Key) (sid : Nat)
    (h : k2 ≠ k) : jgetL (spliceMap m k sid) k2 = jgetL m k2 := by
  unfold spliceMap
  cases hm : aget m k with
  | none => rfl
  | some l =>
    by_cases hmem : sid ∈ l
    · by_cases hnil : l.erase sid = [] <;>
        simp [hmem, hnil, jgetL_adel_ne _ _ _ h, jgetL_aset_ne _ _ _ _ h]
    · simp [hmem]

theorem spliceMap_of_not_mem (m : List (Key × List Nat)) (k : Key) (sid : Nat)
    (h : sid ∉ jgetL m k) : spliceMap m k sid = m := by
  unfold spliceMap
  cases hm : aget m k with
  | none => rfl
  | some l =>
    have : sid ∉ l := by simpa [jgetL, hm] using h
    simp [this]

theorem jgetL_dropOldest_self (m : List (Key × List Nat)) (k : Key) :
    jgetL (dropOldest m k) k = (jgetL m k).tail := by
  unfold dropOldest
  cases hm : jgetL m k with
  | nil => simp [hm]
  | cons r rest =>
    by_cases hnil : rest = [] <;> simp [hnil, jgetL_adel_self, jgetL_aset_self]

theorem jgetL_dropOldest_ne (m : List (Key × List Nat)) (k k2 : Key)
    (h : k2 ≠ k) : jgetL (dropOldest m k) k2 = jgetL m k2 := by
  unfold dropOldest
  cases hm : jgetL m k with
  | nil => rfl
  | cons r rest =>
    by_cases hnil : rest = [] <;>
      simp [hnil, jgetL_adel_ne _ _ _ h, jgetL_aset_ne _ _ _ _ h]

@[simp] theorem aget_updInfo_self (m : List (Nat × SockInfo)) (sid : Nat)
    (f : SockInfo → SockInfo) :
    aget (updInfo m sid f) sid = (aget m sid).map f := by
  induction m with
  | nil => rfl
  | cons p rest ih =>
    obtain ⟨j, i⟩ := p
    by_cases h : j = sid <;> simp [updInfo, aget, h, ih]

@[simp] theorem aget_updInfo_ne (m : List (Nat × SockInfo)) (sid sid2 : Nat)
    (f : SockInfo → SockInfo) (h : sid2 ≠ sid) :
    aget (updInfo m sid f) sid2 = aget m sid2 := by
  have hk : sid ≠ sid2 := Ne.symm h
  induction m with
  | nil => rfl
  | cons p rest ih =>
    obtain ⟨j, i⟩ := p
    by_cases hj : j = sid
    · subst hj
      simp [updInfo, aget, hk, ih]
    · simp [updInfo, aget, hj, ih]

theorem aget_append_some (m m2 : List (Nat × SockInfo)) (sid : Nat) (i : SockInfo)
    (h : aget m sid = some i) : aget (m ++ m2) sid = some i := by
  induction m with
  | nil => simp [aget] at h
  | cons p rest ih =>
    obtain ⟨j, v⟩ := p
    by_cases hj : j = sid <;> simp [aget, hj] at h ⊢ <;> simp_all

theorem aget_append_none (m m2 : List (Nat × SockInfo)) (sid : Nat)
    (h : aget m sid = none) : aget (m ++ m2) sid = aget m2 sid := by
  induction m with
  | nil => simp
  | cons p rest ih =>
    obtain ⟨j, v⟩ := p
    by_cases hj : j = sid <;> simp [aget, hj] at h ⊢
    simp_all

end Yakaa

namespace Yakaa

theorem jgetL_ensure_self (m : List (Key × List Nat)) (k : Key) :
    jgetL (if (aget m k).isNone then aset m k [] else m) k = jgetL m k := by
  cases hm : aget m k with
  | none => simp [hm, jgetL, jgetL_aset_self]
  | some l => simp [hm]

theorem jgetL_ensure_ne (m : List (Key × List Nat)) (k k2 : Key) (h : k2 ≠ k) :
    jgetL (if (aget m k).isNone then aset m k [] else m) k2 = jgetL m k2 := by
  cases hm : aget m k with
  | none => simp [hm, jgetL_aset_ne _ _ _ _ h]
  | some l => simp [hm]

theorem aget_markDestroyed (m : List (Nat × SockInfo)) (tr : List Nat) (sid : Nat) :
    aget (markDestroyed m tr) sid =
      (aget m sid).map
        (fun i => if sid ∈ tr then { i with destroyed := true } else i) := by
  induction m with
  | nil => rfl
  | cons p rest ih =>
    obtain ⟨j, i⟩ := p
    by_cases hj : j = sid
    · subst hj
      by_cases hm : j ∈ tr <;> simp [markDestroyed, aget, hm, ih]
    · by_cases hm : j ∈ tr <;> simp [markDestroyed, aget, hj, hm, ih]

/-! ## C10 — the destination key function -/

/-- C10: `getName` is a pure function computing
`host ++ ":" ++ port ++ ":" ++ localAddress ++ ":"` with an absent host
replaced by `"localhost"` and absent port / localAddress rendered empty; any
two option records agreeing on host, port and localAddress (in particular
an absent host versus an explicit `"localhost"` host) produce the same
registry key regardless of their other fields. -/
theorem getName_key_semantics (o o2 : ReqOptions)
    (hh : o.host = o2.host) (hp : o.port = o2.port)
    (hl : o.localAddress = o2.localAddress) :
    getName o =
      (match o.host with | some h => h | none => "localhost") ++ ":" ++
      (match o.port with | some p => p | none => "") ++ ":" ++
      (match o.localAddress with | some a => a | none => "") ++ ":" ∧
    getName o = getName o2 ∧
    getName { o with host := none } = getName { o with host := some "localhost" } := by
  refine ⟨rfl, ?_, rfl⟩
  unfold getName
  rw [hh, hp, hl]

/-- Witness for C10 at concrete options differing only in unrelated fields. -/
theorem getName_key_semantics_witness :
    getName { host := none, port := some "80", localAddress := none,
              path := some "/a", keepAliveMsecs := none } = "localhost:80::" ∧
    getName { host := none, port := some "80", localAddress := none,
              path := some "/a", keepAliveMsecs := none } =
      getName { host := none, port := some "80", localAddress := none,
                path := some "/b", keepAliveMsecs := some 7 } ∧
    getName { host := none, port := some "80", localAddress := none,
              path := some "/a", keepAliveMsecs := none } =
      getName { host := some "localhost", port := some "80", localAddress := none,
                path := some "/a", keepAliveMsecs := none } :=
  getName_key_semantics
    { host := none, port := some "80", localAddress := none,
      path := some "/a", keepAliveMsecs := none }
    { host := none, port := some "80", localAddress := none,
      path := some "/b", keepAliveMsecs := some 7 } rfl rfl rfl

/-! ## C1 — eager replacement after removal with a non-empty queue -/

/-- C1: at a state with request 3 queued for "h", removal of a connection
triggers eager replacement creation.  When the connector fails, the
callback `socket.emit('tunnelError', err)` dereferences its undefined
`socket` argument and raises an uncaught TypeError (`Except.error ()`)
instead of delivering a TunnelError to the queued request; when it
succeeds, the oldest queued request (3) is served with the fresh socket 5
through the free/dispatch path. -/
theorem removeSocket_replacement_crash :
    removeSocket stQueued 9 true "h" false = .error () ∧
    ∃ st2, removeSocket stQueued 9 true "h" true = .ok (st2, some (3, 5)) ∧
      jgetL st2.sockets "h" = [5] ∧ jgetL st2.requests "h" = [] := by
  refine ⟨rfl, _, rfl, ?_, ?_⟩ <;> decide

/-! ## C4 — reuse-before-create, oldest free first -/

/-- C4: when the free list for the key is non-empty, `addRequest` never
invokes the Connector; it shifts the oldest free connection, hands it to
the request (outcome `reused`), appends it to the busy list and leaves the
remaining free list in order. -/
theorem acquire_reuses_oldest_free (cfg : Config) (st : SysState) (k : Key)
    (connOk : Bool) (s : Nat) (rest : List Nat)
    (hfree : jgetL st.freeSockets k = s :: rest) :
    (addRequest cfg st k connOk).2.2 = false ∧
    (addRequest cfg st k connOk).2.1 = .reused st.nextRid s ∧
    jgetL (addRequest cfg st k connOk).1.sockets k = jgetL st.sockets k ++ [s] ∧
    jgetL (addRequest cfg st k connOk).1.freeSockets k = rest ∧
    (aget (addRequest cfg st k connOk).1.info s).map SockInfo.held =
      (aget st.info s).map (fun _ => true) := by
  have hchar : addRequest cfg st k connOk =
      ({ sockets := pushMap
           (if (aget st.sockets k).isNone then aset st.sockets k [] else st.sockets) k s,
         freeSockets :=
           if rest = [] then adel st.freeSockets k else aset st.freeSockets k rest,
         requests := st.requests,
         info := updInfo st.info s (fun i => { i with held := true }),
         nextSid := st.nextSid, nextRid := st.nextRid + 1 },
       .reused st.nextRid s, false) := by
    unfold addRequest
    simp only [hfree]
    rfl
  rw [hchar]
  refine ⟨rfl, rfl, ?_, ?_, ?_⟩
  · exact (jgetL_pushMap_self _ _ _).trans
      (by rw [jgetL_ensure_self])
  · by_cases hr : rest = []
    · simp [hr, jgetL_adel_self]
    · simp [hr, jgetL_aset_self]
  · simp only [aget_updInfo_self]
    cases aget st.info s <;> simp

/-- Witness for C4: a pool with free sockets 4 then 6 for "h" reuses 4. -/
theorem acquire_reuses_oldest_free_witness :
    (addRequest cfgNone
      { sockets := [], freeSockets := [("h", [4, 6])], requests := [],
        info := [(4, freshInfo "h"), (6, freshInfo "h")],
        nextSid := 7, nextRid := 2 } "h" true).2.2 = false ∧
    (addRequest cfgNone
      { sockets := [], freeSockets := [("h", [4, 6])], requests := [],
        info := [(4, freshInfo "h"), (6, freshInfo "h")],
        nextSid := 7, nextRid := 2 } "h" true).2.1 = .reused 2 4 ∧
    jgetL (addRequest cfgNone
      { sockets := [], freeSockets := [("h", [4, 6])], requests := [],
        info := [(4, freshInfo "h"), (6, freshInfo "h")],
        nextSid := 7, nextRid := 2 } "h" true).1.sockets "h" = [] ++ [4] ∧
    jgetL (addRequest cfgNone
      { sockets := [], freeSockets := [("h", [4, 6])], requests := [],
        info := [(4, freshInfo "h"), (6, freshInfo "h")],
        nextSid := 7, nextRid := 2 } "h" true).1.freeSockets "h" = [6] ∧
    (aget (addRequest cfgNone
      { sockets := [], freeSockets := [("h", [4, 6])], requests := [],
        info := [(4, freshInfo "h"), (6, freshInfo "h")],
        nextSid := 7, nextRid := 2 } "h" true).1.info 4).map SockInfo.held =
      (aget ([(4, freshInfo "h"), (6, freshInfo "h")] : List (Nat × SockInfo)) 4).map
        (fun _ => true) :=
  acquire_reuses_oldest_free cfgNone
    { sockets := [], freeSockets := [("h", [4, 6])], requests := [],
      info := [(4, freshInfo "h"), (6, freshInfo "h")],
      nextSid := 7, nextRid := 2 } "h" true 4 [6] rfl

end Yakaa

namespace Yakaa

/-! ## C3 — release-dispatch to the oldest queued request -/

/-- C3 (amended: the released connection must not be destroyed): releasing
a non-destroyed connection while the destination queue is non-empty
dequeues the oldest request and hands it that very connection; the busy
and free collections are untouched, so the connection stays busy and never
visits the free list. -/
theorem release_dispatch_nondestroyed (cfg : Config) (st : SysState) (sid r : Nat)
    (rest : List Nat) (k : Key) (msg : Option Bool) (connOk : Bool)
    (hq : jgetL st.requests k = r :: rest) (hbusy : sid ∈ jgetL st.sockets k) :
    ∃ st2, onFree cfg st sid false msg k connOk = .ok (st2, .served r) ∧
      jgetL st2.requests k = rest ∧ st2.sockets = st.sockets ∧
      st2.freeSockets = st.freeSockets ∧ sid ∈ jgetL st2.sockets k := by
  refine ⟨{ setHeld st sid true with
            requests := dropOldest (setHeld st sid true).requests k },
    ?_, ?_, rfl, rfl, hbusy⟩
  · unfold onFree
    simp only [hq]
    simp
  · show jgetL (dropOldest st.requests k) k = rest
    rw [jgetL_dropOldest_self, hq]
    rfl

/-- C3 fails as stated: releasing the destroyed busy socket 0 with request
7 queued hands 7 a fresh replacement socket (1), not the released one. -/
theorem C3_counterexample : ¬ C3stated := by
  intro h
  obtain ⟨st2, heq, -, -⟩ := h cfgNone stC3 0 7 [] "h" true (some false) true rfl (by decide)
  have hval : onFree cfgNone stC3 0 true (some false) "h" true =
      .ok (stC3post, .destroyedReplaced 7 1) := rfl
  rw [hval] at heq
  injection heq with h1
  have hb : RelOutcome.destroyedReplaced 7 1 = RelOutcome.served 7 :=
    congrArg Prod.snd h1
  exact absurd hb (by decide)

/-- Witness for C3 at a live busy socket with one queued request. -/
theorem release_dispatch_nondestroyed_witness :
    ∃ st2, onFree cfgNone stBusyQ 0 false (some false) "h" true = .ok (st2, .served 7) ∧
      jgetL st2.requests "h" = [] ∧ st2.sockets = stBusyQ.sockets ∧
      st2.freeSockets = stBusyQ.freeSockets ∧ 0 ∈ jgetL st2.sockets "h" :=
  release_dispatch_nondestroyed cfgNone stBusyQ 0 7 [] "h" (some false) true rfl
    (by decide)

/-! ## C6 — idempotence of removal and of releasing a removed socket -/

/-- C6 (amended: provided the destination queue is empty — a non-empty
queue triggers eager replacement creation even for an absent connection):
removing a connection absent from both collections is a no-op, and
releasing an already-removed (destroyed) connection leaves all three
registries unchanged. -/
theorem remove_release_absent_noop (st : SysState) (sid : Nat) (sdestroyed : Bool)
    (k : Key) (connOk : Bool) (cfg : Config)
    (hbusy : sid ∉ jgetL st.sockets k) (hfree : sid ∉ jgetL st.freeSockets k)
    (hq : jgetL st.requests k = []) :
    removeSocket st sid sdestroyed k connOk = .ok (st, none) ∧
    ∀ msg : Option Bool, ∃ st3,
      onFree cfg st sid true msg k connOk = .ok (st3, .destroyedNoQueue) ∧
      st3.sockets = st.sockets ∧ st3.freeSockets = st.freeSockets ∧
      st3.requests = st.requests := by
  have hrm : ∀ b, removeSocket st sid b k connOk = .ok (st, none) := by
    intro b
    unfold removeSocket
    rw [spliceMap_of_not_mem _ _ _ hbusy, spliceMap_of_not_mem _ _ _ hfree]
    simp only [ite_self, hq]
  refine ⟨hrm sdestroyed, fun msg => ?_⟩
  refine ⟨setHeld (setDestroyed st sid true) sid false, ?_, rfl, rfl, rfl⟩
  have hfd : freeDestroyPath st sid true k connOk =
      .ok (setHeld (setDestroyed st sid true) sid false, .destroyedNoQueue) := by
    unfold freeDestroyPath
    rw [hrm true]
  cases msg <;> simpa [onFree] using hfd

/-- C6 fails as stated: with request 7 queued for "h", removing the absent
socket 0 spawns replacement socket 2 into the busy list — not a no-op. -/
theorem C6_counterexample : ¬ C6stated := by
  intro h
  obtain ⟨⟨st2, rep, heq, hs, -⟩, -⟩ := h stC6 0 false "h" true (by decide) (by decide)
  have hval : removeSocket stC6 0 false "h" true = .ok (stC6post, some (7, 2)) := rfl
  rw [hval] at heq
  injection heq with h1
  have ha : stC6post = st2 := congrArg Prod.fst h1
  rw [← ha] at hs
  exact absurd hs (by decide)

/-- Witness for C6 at a state with an empty queue for "h". -/
theorem remove_release_absent_noop_witness :
    removeSocket stC8 5 true "h" true = .ok (stC8, none) ∧
    ∀ msg : Option Bool, ∃ st3,
      onFree cfgNone stC8 5 true msg "h" true = .ok (st3, .destroyedNoQueue) ∧
      st3.sockets = stC8.sockets ∧ st3.freeSockets = stC8.freeSockets ∧
      st3.requests = stC8.requests :=
  remove_release_absent_noop stC8 5 true "h" true cfgNone (by decide) (by decide) rfl

/-! ## C8 — hook detachment on `agentRemove` -/

/-- C8 (amended: only the `free`, `close` and `agentRemove` hooks are
detached; the `tunnelError` hook remains attached): processing
`agentRemove` for a live busy connection removes it from the registry and
detaches those three hooks, leaving `hookedTunnelError` as it was. -/
theorem agentRemove_detaches_hooks_but_tunnelError (st : SysState) (sid : Nat)
    (k : Key) (connOk : Bool) (i : SockInfo)
    (hinfo : aget st.info sid = some i)
    (hq : jgetL st.requests k = [])
    (hfree : sid ∉ jgetL st.freeSockets k)
    (hnd : (jgetL st.sockets k).Nodup) :
    ∃ st2, onAgentRemove st sid false k connOk = .ok st2 ∧
      sid ∉ jgetL st2.sockets k ∧ sid ∉ jgetL st2.freeSockets k ∧
      aget st2.info sid = some { i with hookedFree := false, hookedClose := false,
                                        hookedAgentRemove := false } := by
  have hrm : removeSocket st sid false k connOk =
      .ok ({ st with sockets := spliceMap st.sockets k sid }, none) := by
    unfold removeSocket
    simp only [hq]
    rfl
  refine ⟨{ sockets := spliceMap st.sockets k sid, freeSockets := st.freeSockets,
            requests := st.requests,
            info := updInfo st.info sid (fun j =>
              { j with hookedClose := false, hookedFree := false,
                       hookedAgentRemove := false }),
            nextSid := st.nextSid, nextRid := st.nextRid }, ?_, ?_, ?_, ?_⟩
  · unfold onAgentRemove
    rw [hrm]
  · show sid ∉ jgetL (spliceMap st.sockets k sid) k
    rw [jgetL_spliceMap_self]
    exact hnd.not_mem_erase
  · exact hfree
  · show aget (updInfo st.info sid _) sid = _
    rw [aget_updInfo_self, hinfo]
    rfl

/-- C8 fails as stated: after `agentRemove` of socket 0 the `tunnelError`
hook is still attached. -/
theorem C8_counterexample : ¬ C8stated := by
  intro h
  have hval : onAgentRemove stC8 0 false "h" true = .ok stC8post := rfl
  obtain ⟨-, -, -, -, hte, -⟩ := h stC8 0 false "h" true stC8post hval
  exact hte (by decide)

/-- Witness for C8 at the one-busy-socket state. -/
theorem agentRemove_detaches_hooks_but_tunnelError_witness :
    ∃ st2, onAgentRemove stC8 0 false "h" true = .ok st2 ∧
      0 ∉ jgetL st2.sockets "h" ∧ 0 ∉ jgetL st2.freeSockets "h" ∧
      aget st2.info 0 = some infoC8post :=
  agentRemove_detaches_hooks_but_tunnelError stC8 0 "h" true
    { freshInfo "h" with held := true } rfl rfl (by decide) (by decide)

/-! ## C9 — `destroy()` -/

/-- C9 (amended: the registry is not cleared by `destroy` itself — entries
disappear only when the per-socket `close` events are later processed):
`destroy()` marks every connection tracked in the busy and free
collections, across all keys, as destroyed, and leaves all three registry
objects untouched. -/
theorem destroy_closes_all_without_clearing (st : SysState) :
    (∀ sid i, aget (destroyAgent st).info sid = some i → sid ∈ trackedSids st →
      i.destroyed = true) ∧
    (destroyAgent st).sockets = st.sockets ∧
    (destroyAgent st).freeSockets = st.freeSockets ∧
    (destroyAgent st).requests = st.requests := by
  refine ⟨?_, rfl, rfl, rfl⟩
  intro sid i hget htr
  have hinfo : (destroyAgent st).info = markDestroyed st.info (trackedSids st) := rfl
  rw [hinfo, aget_markDestroyed] at hget
  cases hag : aget st.info sid with
  | none => rw [hag] at hget; exact absurd hget (by simp)
  | some j =>
    rw [hag] at hget
    simp only [Option.map_some'] at hget
    rw [if_pos htr] at hget
    injection hget with hgi
    rw [← hgi]

/-- C9 fails as stated: `destroy()` does not clear the busy registry. -/
theorem C9_counterexample : ¬ C9stated := by
  intro h
  exact absurd (h stC9).2.1 (by decide)

/-- Witness for C9 at the one-busy-socket state. -/
theorem destroy_closes_all_without_clearing_witness :
    SockInfo.destroyed { freshInfo "h" with held := true, destroyed := true } = true ∧
    (destroyAgent stC9).sockets = stC9.sockets :=
  ⟨(destroy_closes_all_without_clearing stC9).1 0
      { freshInfo "h" with held := true, destroyed := true } (by decide) (by decide),
   (destroy_closes_all_without_clearing stC9).2.1⟩

end Yakaa

namespace Yakaa

/-- Characterization of `removeSocket` when the queue for `k` is empty:
pure splicing, no replacement. -/
theorem removeSocket_queueEmpty (st : SysState) (sid : Nat) (b : Bool) (k : Key)
    (connOk : Bool) (hq : jgetL st.requests k = []) :
    removeSocket st sid b k connOk =
      .ok ({ st with
             sockets := spliceMap st.sockets k sid,
             freeSockets := if b then spliceMap st.freeSockets k sid else st.freeSockets },
        none) := by
  unfold removeSocket
  simp only [hq]

/-! ## C5 — keep-alive pooling and the capacity check -/

/-- C5: with no queued requests and keep-alive eligibility, the released
connection is removed and closed exactly when
`freeLen + busyCount > maxSockets` or `freeLen ≥ maxFreeSockets`, and is
moved from busy to (the end of) free otherwise.  In particular, with
`maxFreeSockets = 1`, releasing two keep-alive-eligible connections for
the same destination leaves exactly one free connection (the first) and
one closed connection (the second). -/
theorem release_pool_capacity_decision (cfg : Config) (st : SysState) (sid : Nat)
    (k : Key) (connOk : Bool)
    (hq : jgetL st.requests k = [])
    (hka : cfg.keepAlive = true) :
    ((gtMax ((jgetL st.freeSockets k).length + (jgetL st.sockets k).length)
        cfg.maxSockets = true ∨
      (jgetL st.freeSockets k).length ≥ cfg.maxFreeSockets) →
      ∃ st2, onFree cfg st sid false (some true) k connOk =
          .ok (st2, .destroyedNoQueue) ∧
        jgetL st2.sockets k = (jgetL st.sockets k).erase sid ∧
        st2.freeSockets = st.freeSockets ∧
        (aget st2.info sid).map SockInfo.destroyed =
          (aget st.info sid).map (fun _ => true)) ∧
    (¬(gtMax ((jgetL st.freeSockets k).length + (jgetL st.sockets k).length)
        cfg.maxSockets = true ∨
      (jgetL st.freeSockets k).length ≥ cfg.maxFreeSockets) →
      ∃ st2, onFree cfg st sid false (some true) k connOk = .ok (st2, .pooled) ∧
        jgetL st2.sockets k = (jgetL st.sockets k).erase sid ∧
        jgetL st2.freeSockets k = jgetL st.freeSockets k ++ [sid]) ∧
    (∃ sf, runOps cfgFree1 c5ops initState = some sf ∧
      jgetL sf.freeSockets "h" = [0] ∧ jgetL sf.sockets "h" = [] ∧
      (aget sf.info 1).map SockInfo.destroyed = some true ∧
      (aget sf.info 0).map SockInfo.destroyed = some false) := by
  refine ⟨?_, ?_, ?_⟩
  · intro hcond
    refine ⟨{ sockets := spliceMap st.sockets k sid, freeSockets := st.freeSockets,
              requests := st.requests,
              info := updInfo (updInfo st.info sid (fun i => { i with destroyed := true })) sid (fun i => { i with held := false }),
              nextSid := st.nextSid, nextRid := st.nextRid }, ?_, ?_, rfl, ?_⟩
    · unfold onFree
      rw [hq, hka]
      rw [if_neg (by simp)]
      dsimp only
      rw [if_pos (by simp), if_pos hcond]
      unfold freeDestroyPath
      rw [removeSocket_queueEmpty st sid false k connOk hq]
      rfl
    · show jgetL (spliceMap st.sockets k sid) k = (jgetL st.sockets k).erase sid
      exact jgetL_spliceMap_self _ _ _
    · simp only [aget_updInfo_self, Option.map_map]
      cases aget st.info sid <;> rfl
  · intro hcond
    refine ⟨{ sockets := spliceMap st.sockets k sid,
              freeSockets := aset (aset st.freeSockets k (jgetL st.freeSockets k)) k
                (jgetL st.freeSockets k ++ [sid]),
              requests := st.requests,
              info := updInfo (updInfo st.info sid (fun i => { i with held := false })) sid (fun i => { i with httpMessage := none }),
              nextSid := st.nextSid, nextRid := st.nextRid }, ?_, ?_, ?_⟩
    · unfold onFree
      rw [hq, hka]
      rw [if_neg (by simp)]
      dsimp only
      rw [if_pos (by simp), if_neg hcond]
      rw [removeSocket_queueEmpty
        (setMsg (setHeld { st with
          freeSockets := aset st.freeSockets k (jgetL st.freeSockets k) } sid false) sid none)
        sid false k connOk hq]
      rfl
    · show jgetL (spliceMap st.sockets k sid) k = (jgetL st.sockets k).erase sid
      exact jgetL_spliceMap_self _ _ _
    · show jgetL (aset (aset st.freeSockets k (jgetL st.freeSockets k)) k
        (jgetL st.freeSockets k ++ [sid])) k = jgetL st.freeSockets k ++ [sid]
      exact jgetL_aset_self _ _ _
  · exact ⟨_, rfl, rfl, rfl, rfl, rfl⟩

/-- Witness for C5: pooling branch at a two-busy-socket state under
`maxFreeSockets = 1`. -/
theorem release_pool_capacity_decision_witness :
    ∃ st2, onFree cfgFree1 stC5 0 false (some true) "h" true = .ok (st2, .pooled) ∧
      jgetL st2.sockets "h" = (jgetL stC5.sockets "h").erase 0 ∧
      jgetL st2.freeSockets "h" = jgetL stC5.freeSockets "h" ++ [0] :=
  (release_pool_capacity_decision cfgFree1 stC5 0 "h" true rfl rfl).2.1 (by decide)

end Yakaa

namespace Yakaa

/-! ## Pruning lemmas (claim C7) -/

theorem aset_aset {κ α : Type} [DecidableEq κ] (m : List (κ × α)) (k : κ) (v w : α) :
    aset (aset m k v) k w = aset m k w := by
  induction m with
  | nil => simp [aset]
  | cons p rest ih =>
    obtain ⟨k2, v2⟩ := p
    by_cases h : k2 = k <;> simp [aset, h, ih]

theorem prunedMap_adel (m : List (Key × List Nat)) (k : Key)
    (hm : prunedMap m) : prunedMap (adel m k) := by
  induction m with
  | nil => intro p hp; simp [adel] at hp
  | cons q rest ih =>
    obtain ⟨k2, v2⟩ := q
    have hm2 : prunedMap rest := fun r hr => hm r (List.mem_cons_of_mem _ hr)
    intro p hp
    by_cases h : k2 = k
    · simp only [adel, h, if_true] at hp
      exact ih hm2 p hp
    · simp only [adel, h] at hp
      cases hp with
      | head => exact hm _ (List.mem_cons_self _ _)
      | tail _ hp2 => exact ih hm2 p hp2

theorem prunedMap_aset (m : List (Key × List Nat)) (k : Key) (l : List Nat)
    (hm : prunedMap m) (hl : l ≠ []) : prunedMap (aset m k l) := by
  induction m with
  | nil =>
    intro p hp
    simp only [aset, List.mem_singleton] at hp
    exact hp ▸ hl
  | cons q rest ih =>
    obtain ⟨k2, v2⟩ := q
    have hm2 : prunedMap rest := fun r hr => hm r (List.mem_cons_of_mem _ hr)
    intro p hp
    by_cases h : k2 = k
    · simp only [aset, h, if_true] at hp
      cases hp with
      | head => exact hl
      | tail _ hp2 => exact hm _ (List.mem_cons_of_mem _ hp2)
    · simp only [aset, h] at hp
      cases hp with
      | head => exact hm _ (List.mem_cons_self _ _)
      | tail _ hp2 => exact ih hm2 p hp2

theorem prunedMap_pushMap (m : List (Key × List Nat)) (k : Key) (sid : Nat)
    (hm : prunedMap m) : prunedMap (pushMap m k sid) := by
  unfold pushMap
  exact prunedMap_aset m k _ hm (by simp)

theorem prunedMap_spliceMap (m : List (Key × List Nat)) (k : Key) (sid : Nat)
    (hm : prunedMap m) : prunedMap (spliceMap m k sid) := by
  unfold spliceMap
  cases hg : aget m k with
  | none => exact hm
  | some l =>
    by_cases hmem : sid ∈ l
    · by_cases hnil : l.erase sid = []
      · simp only [hmem, hnil, if_pos, if_true]
        exact prunedMap_adel m k hm
      · simp only [hmem, hnil, if_true, if_false]
        exact prunedMap_aset m k _ hm hnil
    · simp only [hmem, if_false]
      exact hm

theorem prunedMap_dropOldest (m : List (Key × List Nat)) (k : Key)
    (hm : prunedMap m) : prunedMap (dropOldest m k) := by
  unfold dropOldest
  cases hg : jgetL m k with
  | nil => exact hm
  | cons r rest =>
    by_cases hnil : rest = []
    · simp only [hnil, if_true]
      exact prunedMap_adel m k hm
    · simp only [hnil, if_false]
      exact prunedMap_aset m k _ hm hnil

theorem pruned_removeSocket (st : SysState) (sid : Nat) (b : Bool) (k : Key)
    (connOk : Bool) (st2 : SysState) (rep : Option (Nat × Nat))
    (hp : pruned st) (h : removeSocket st sid b k connOk = .ok (st2, rep)) :
    pruned st2 := by
  obtain ⟨hp1, hp2, hp3⟩ := hp
  have hpf : prunedMap (if b then spliceMap st.freeSockets k sid else st.freeSockets) := by
    cases b
    · exact hp2
    · exact prunedMap_spliceMap _ _ _ hp2
  unfold removeSocket at h
  cases hqm : jgetL st.requests k with
  | nil =>
    simp only [hqm] at h
    injection h with h1
    injection h1 with ha hb
    rw [← ha]
    exact ⟨prunedMap_spliceMap _ _ _ hp1, hpf, hp3⟩
  | cons r rs =>
    simp only [hqm] at h
    cases connOk
    · exact absurd h (by simp)
    · simp only [if_true] at h
      injection h with h1
      injection h1 with ha hb
      rw [← ha]
      refine ⟨?_, hpf, ?_⟩
      · exact prunedMap_pushMap _ _ _ (prunedMap_spliceMap _ _ _ hp1)
      · exact prunedMap_dropOldest _ _ hp3

theorem pruned_freeDestroyPath (st : SysState) (sid : Nat) (b : Bool) (k : Key)
    (connOk : Bool) (st2 : SysState) (o : RelOutcome)
    (hp : pruned st) (h : freeDestroyPath st sid b k connOk = .ok (st2, o)) :
    pruned st2 := by
  unfold freeDestroyPath at h
  cases hr : removeSocket st sid b k connOk with
  | error e => rw [hr] at h; exact absurd h (by simp)
  | ok p =>
    obtain ⟨st1, rep⟩ := p
    rw [hr] at h
    injection h with h1
    injection h1 with ha hb
    rw [← ha]
    obtain ⟨a, b2, c⟩ := pruned_removeSocket st sid b k connOk st1 rep hp hr
    exact ⟨a, b2, c⟩

end Yakaa

namespace Yakaa

theorem pruned_onFree (cfg : Config) (st : SysState) (sid : Nat) (b : Bool)
    (msg : Option Bool) (k : Key) (connOk : Bool) (st2 : SysState) (o : RelOutcome)
    (hp : pruned st) (h : onFree cfg st sid b msg k connOk = .ok (st2, o)) :
    pruned st2 := by
  obtain ⟨hp1, hp2, hp3⟩ := hp
  unfold onFree at h
  by_cases hg : (¬b = true ∧ jgetL st.requests k ≠ [])
  · rw [if_pos hg] at h
    cases hqm : jgetL st.requests k with
    | nil =>
      simp only [hqm] at h
      injection h with h1
      injection h1 with ha hb2
      rw [← ha]
      exact ⟨hp1, hp2, hp3⟩
    | cons r rs =>
      simp only [hqm] at h
      injection h with h1
      injection h1 with ha hb2
      rw [← ha]
      exact ⟨hp1, hp2, prunedMap_dropOldest _ _ hp3⟩
  · rw [if_neg hg] at h
    cases msg with
    | none =>
      dsimp only at h
      exact pruned_freeDestroyPath st sid b k connOk st2 o ⟨hp1, hp2, hp3⟩ h
    | some ka =>
      dsimp only at h
      by_cases hka : (ka = true ∧ ¬b = true ∧ cfg.keepAlive = true)
      · rw [if_pos hka] at h
        by_cases hcap : (gtMax ((jgetL st.freeSockets k).length +
            (jgetL st.sockets k).length) cfg.maxSockets = true ∨
            (jgetL st.freeSockets k).length ≥ cfg.maxFreeSockets)
        · rw [if_pos hcap] at h
          exact pruned_freeDestroyPath st sid b k connOk st2 o ⟨hp1, hp2, hp3⟩ h
        · rw [if_neg hcap] at h
          have hbf : b = false := by
            cases b
            · rfl
            · exact absurd rfl hka.2.1
          subst hbf
          have hq : jgetL st.requests k = [] := by
            by_contra hne
            exact hg ⟨by simp, hne⟩
          rw [removeSocket_queueEmpty
            (setMsg (setHeld { st with
              freeSockets := aset st.freeSockets k (jgetL st.freeSockets k) } sid false)
              sid none)
            sid false k connOk hq] at h
          dsimp only at h
          injection h with h1
          injection h1 with ha hb2
          rw [← ha]
          refine ⟨?_, ?_, hp3⟩
          · exact prunedMap_spliceMap _ _ _ hp1
          · show prunedMap (aset (aset st.freeSockets k (jgetL st.freeSockets k)) k
              (jgetL st.freeSockets k ++ [sid]))
            rw [aset_aset]
            exact prunedMap_aset _ _ _ hp2 (by simp)
      · rw [if_neg hka] at h
        exact pruned_freeDestroyPath st sid b k connOk st2 o ⟨hp1, hp2, hp3⟩ h

theorem pruned_addRequest (cfg : Config) (st : SysState) (k : Key) (connOk : Bool)
    (hp : pruned st) (hv : ValidCfg cfg) (hc : connOk = true) :
    pruned (addRequest cfg st k connOk).1 := by
  subst hc
  obtain ⟨hp1, hp2, hp3⟩ := hp
  unfold addRequest
  cases hfl : jgetL st.freeSockets k with
  | cons s rest =>
    simp only [hfl]
    refine ⟨?_, ?_, hp3⟩
    · cases hag : aget st.sockets k with
      | none =>
        simp only [hag, Option.isNone_none, if_true, setHeld]
        unfold pushMap
        rw [jgetL_aset_self, aset_aset]
        exact prunedMap_aset _ _ _ hp1 (by simp)
      | some l =>
        simp only [hag, Option.isNone_some, Bool.false_eq_true, if_false, setHeld]
        exact prunedMap_pushMap _ _ _ hp1
    · by_cases hr : rest = []
      · simp only [hr, if_true]
        exact prunedMap_adel _ _ hp2
      · simp only [hr, if_false]
        exact prunedMap_aset _ _ _ hp2 hr
  | nil =>
    cases hag : aget st.sockets k with
    | none =>
      have hlt : ltMax (([] : List Nat).length +
          (jgetL (aset st.sockets k []) k).length) cfg.maxSockets = true := by
        rw [jgetL_aset_self]
        cases hm : cfg.maxSockets with
        | none => rfl
        | some m =>
          have hm0 : m ≠ 0 := fun h0 => hv.1 (by rw [hm, h0])
          simp [ltMax, Nat.pos_of_ne_zero hm0]
      simp only [hfl, hag, Option.isNone_none, if_true, hlt, setHeld]
      refine ⟨?_, hp2, hp3⟩
      unfold pushMap
      rw [jgetL_aset_self, aset_aset]
      exact prunedMap_aset _ _ _ hp1 (by simp)
    | some l =>
      simp only [hfl, hag, Option.isNone_some, Bool.false_eq_true, if_false, setHeld]
      by_cases hlt : ltMax (([] : List Nat).length + (jgetL st.sockets k).length)
          cfg.maxSockets = true
      · rw [if_pos hlt]
        exact ⟨prunedMap_pushMap _ _ _ hp1, hp2, hp3⟩
      · rw [if_neg hlt]
        exact ⟨hp1, hp2, prunedMap_pushMap _ _ _ hp3⟩

/-! ## C7 — no stale empty registry entries -/

/-- C7 (amended: except for an `acquire` whose connector attempt fails,
which leaves behind the empty busy entry created by
`this.sockets[name] = []`): every event processed from a state with no
stale empty registry entries yields a state with no stale empty registry
entries. -/
theorem step_preserves_pruned (cfg : Config) (op : Op) (st st2 : SysState)
    (hv : ValidCfg cfg) (hp : pruned st)
    (hnf : ¬ connectorFailureAcquire op)
    (h : stepFn cfg op st = some st2) : pruned st2 := by
  obtain ⟨hp1, hp2, hp3⟩ := hp
  cases op with
  | acquire k connOk =>
    have hc : connOk = true := by
      cases connOk
      · exact absurd rfl hnf
      · rfl
    simp only [stepFn] at h
    injection h with h1
    rw [← h1]
    exact pruned_addRequest cfg st k connOk ⟨hp1, hp2, hp3⟩ hv hc
  | finish sid ka connOk =>
    simp only [stepFn] at h
    cases hag : aget st.info sid with
    | none => rw [hag] at h; exact absurd h (by simp)
    | some i =>
      simp only [hag] at h
      by_cases hgd : (i.hookedFree = true ∧ i.held = true)
      · rw [if_pos hgd] at h
        cases ho : onFree cfg (setMsg st sid (some ka)) sid i.destroyed (some ka)
            i.key connOk with
        | error e => rw [ho] at h; exact absurd h (by simp)
        | ok p =>
          obtain ⟨stx, o⟩ := p
          rw [ho] at h
          injection h with h1
          rw [← h1]
          exact pruned_onFree cfg (setMsg st sid (some ka)) sid i.destroyed (some ka)
            i.key connOk stx o ⟨hp1, hp2, hp3⟩ ho
      · rw [if_neg hgd] at h
        exact absurd h (by simp)
  | remoteDestroy sid =>
    simp only [stepFn] at h
    cases hag : aget st.info sid with
    | none => rw [hag] at h; exact absurd h (by simp)
    | some i =>
      simp only [hag] at h
      by_cases hd : i.destroyed = true
      · rw [if_pos hd] at h
        exact absurd h (by simp)
      · rw [if_neg hd] at h
        injection h with h1
        rw [← h1]
        exact ⟨hp1, hp2, hp3⟩
  | closeEvt sid connOk =>
    simp only [stepFn] at h
    cases hag : aget st.info sid with
    | none => rw [hag] at h; exact absurd h (by simp)
    | some i =>
      simp only [hag] at h
      by_cases hgd : (i.destroyed = true ∧ ¬i.closed = true ∧ i.hookedClose = true)
      · rw [if_pos hgd] at h
        cases hr : removeSocket (setClosed st sid true) sid true i.key connOk with
        | error e => rw [hr] at h; exact absurd h (by simp)
        | ok p =>
          obtain ⟨stx, rep⟩ := p
          rw [hr] at h
          injection h with h1
          rw [← h1]
          exact pruned_removeSocket (setClosed st sid true) sid true i.key connOk
            stx rep ⟨hp1, hp2, hp3⟩ hr
      · rw [if_neg hgd] at h
        exact absurd h (by simp)
  | agentRemoveEvt sid connOk =>
    simp only [stepFn] at h
    cases hag : aget st.info sid with
    | none => rw [hag] at h; exact absurd h (by simp)
    | some i =>
      simp only [hag] at h
      by_cases hgd : i.hookedAgentRemove = true
      · rw [if_pos hgd] at h
        unfold onAgentRemove at h
        cases hr : removeSocket st sid i.destroyed i.key connOk with
        | error e => rw [hr] at h; exact absurd h (by simp)
        | ok p =>
          obtain ⟨stx, rep⟩ := p
          rw [hr] at h
          dsimp only at h
          injection h with h1
          rw [← h1]
          obtain ⟨a, b2, c⟩ := pruned_removeSocket st sid i.destroyed i.key connOk
            stx rep ⟨hp1, hp2, hp3⟩ hr
          exact ⟨a, b2, c⟩
      · rw [if_neg hgd] at h
        exact absurd h (by simp)
  | tunnelErrEvt sid =>
    simp only [stepFn] at h
    cases hag : aget st.info sid with
    | none => rw [hag] at h; exact absurd h (by simp)
    | some i =>
      simp only [hag] at h
      by_cases hgd : i.hookedTunnelError = true
      · rw [if_pos hgd] at h
        unfold onTunnelErrorAgent at h
        cases hq : aget st.requests i.key with
        | none => rw [hq] at h; exact absurd h (by simp)
        | some rs =>
          rw [hq] at h
          cases rs with
          | nil =>
            dsimp only at h
            injection h with h1
            rw [← h1]
            exact ⟨hp1, hp2, hp3⟩
          | cons r rest =>
            dsimp only at h
            injection h with h1
            rw [← h1]
            refine ⟨hp1, hp2, ?_⟩
            by_cases hr : rest = []
            · simp only [hr, if_true]
              exact prunedMap_adel _ _ hp3
            · simp only [hr, if_false]
              exact prunedMap_aset _ _ _ hp3 hr
      · rw [if_neg hgd] at h
        exact absurd h (by simp)
  | destroyAll =>
    simp only [stepFn] at h
    injection h with h1
    rw [← h1]
    exact ⟨hp1, hp2, hp3⟩

/-- C7 fails as stated: an `acquire` on a fresh key whose (tunnel)
connector attempt fails leaves behind the empty busy-collection entry
created by `this.sockets[name] = []`. -/
theorem C7_counterexample : ¬ C7stated := by
  intro h
  have h2 := h cfgNone (.acquire "h" false) initState
    (addRequest cfgNone initState "h" false).1 (by decide) (by decide) rfl
  exact absurd h2 (by decide)

/-- Witness for C7: a successful acquire from the empty state. -/
theorem step_preserves_pruned_witness :
    pruned (addRequest cfgNone initState "h" true).1 :=
  step_preserves_pruned cfgNone (.acquire "h" true) initState
    (addRequest cfgNone initState "h" true).1 (by decide) (by decide) (by decide) rfl

end Yakaa

namespace Yakaa

/-! ## Invariant machinery for claim C2 -/

theorem nodup_append_singleton (lb lf : List Nat) (x : Nat)
    (h : (lb ++ lf).Nodup) (hx : x ∉ lb ++ lf) :
    ((lb ++ [x]) ++ lf).Nodup := by
  have he : lb ++ [x] ++ lf = lb ++ x :: lf := by simp
  rw [he]
  exact List.nodup_middle.mpr (List.nodup_cons.mpr ⟨hx, h⟩)

theorem nodup_pool_move (lb lf : List Nat) (sid : Nat)
    (h : (lb ++ lf).Nodup) (hsf : sid ∉ lf) :
    (lb.erase sid ++ (lf ++ [sid])).Nodup := by
  obtain ⟨hlb, hlf, hdisj⟩ := List.nodup_append.mp h
  rw [← List.append_assoc]
  refine List.nodup_append.mpr ⟨?_, ?_, ?_⟩
  · refine List.Sublist.nodup ?_ h
    exact List.Sublist.append (List.erase_sublist _ _) (List.Sublist.refl _)
  · simp
  · intro a ha
    simp only [List.mem_append] at ha
    simp only [List.mem_singleton]
    rcases ha with ha | ha
    · exact ((hlb.mem_erase_iff).mp ha).1
    · intro he
      exact hsf (he ▸ ha)

theorem inv_init : Inv initState := by
  refine ⟨?_, ?_, ⟨?_, ?_⟩, ?_, ?_⟩
  · intro k; simp [initState, jgetL]
  · intro k sid hm; simp [initState, jgetL] at hm
  · intro k sid hm; simp [initState, jgetL] at hm
  · intro sid i hg; simp [initState, aget] at hg
  · intro sid i hg; simp [initState, aget] at hg
  · intro sid i hg; simp [initState, aget] at hg

theorem inv_transfer (st st2 : SysState)
    (hb : ∀ k2, jgetL st2.sockets k2 = jgetL st.sockets k2)
    (hf : ∀ k2, jgetL st2.freeSockets k2 = jgetL st.freeSockets k2)
    (hi : st2.info = st.info) (hn : st2.nextSid = st.nextSid)
    (hInv : Inv st) : Inv st2 := by
  obtain ⟨hA, hB, hC, hD, hE⟩ := hInv
  refine ⟨?_, ?_, ⟨?_, ?_⟩, ?_, ?_⟩
  · intro k; rw [hb, hf]; exact hA k
  · intro k sid hm; rw [hb, hf] at hm; rw [hi]; exact hB k sid hm
  · intro k sid hm; rw [hb, hf] at hm; rw [hn]; exact hC.1 k sid hm
  · intro sid i hg; rw [hi] at hg; rw [hn]; exact hC.2 sid i hg
  · intro sid i hg hh; rw [hi] at hg; rw [hf]; exact hD sid i hg hh
  · intro sid i hg h1 h2 h3; rw [hi] at hg; rw [hb]; exact hE sid i hg h1 h2 h3

/-- Info updates that neither grant `held`, revive a destroyed socket,
attach the `free` hook, nor change the key preserve the invariant. -/
theorem inv_updInfo_safe (st : SysState) (sid : Nat) (f : SockInfo → SockInfo)
    (hkey : ∀ j, (f j).key = j.key)
    (hheld : ∀ j, (f j).held = true → j.held = true)
    (hdest : ∀ j, (f j).destroyed = false → j.destroyed = false)
    (hhook : ∀ j, (f j).hookedFree = true → j.hookedFree = true)
    (hInv : Inv st) : Inv { st with info := updInfo st.info sid f } := by
  obtain ⟨hA, hB, hC, hD, hE⟩ := hInv
  refine ⟨hA, ?_, ⟨hC.1, ?_⟩, ?_, ?_⟩
  · intro k sid2 hm
    obtain ⟨i, hg, hk⟩ := hB k sid2 hm
    show ∃ i2, aget (updInfo st.info sid f) sid2 = some i2 ∧ i2.key = k
    by_cases hs : sid2 = sid
    · subst hs
      rw [aget_updInfo_self, hg]
      exact ⟨f i, rfl, (hkey i).trans hk⟩
    · rw [aget_updInfo_ne _ _ _ _ hs, hg]
      exact ⟨i, rfl, hk⟩
  · intro sid2 i hg
    replace hg : aget (updInfo st.info sid f) sid2 = some i := hg
    by_cases hs : sid2 = sid
    · subst hs
      rw [aget_updInfo_self] at hg
      cases ho : aget st.info sid2 with
      | none => rw [ho] at hg; exact absurd hg (by simp)
      | some j => exact hC.2 sid2 j ho
    · rw [aget_updInfo_ne _ _ _ _ hs] at hg
      exact hC.2 sid2 i hg
  · intro sid2 i hg hh
    replace hg : aget (updInfo st.info sid f) sid2 = some i := hg
    show sid2 ∉ jgetL st.freeSockets i.key
    by_cases hs : sid2 = sid
    · subst hs
      rw [aget_updInfo_self] at hg
      cases ho : aget st.info sid2 with
      | none => rw [ho] at hg; exact absurd hg (by simp)
      | some j =>
        rw [ho] at hg
        simp only [Option.map_some'] at hg
        injection hg with hgi
        rw [← hgi] at hh ⊢
        rw [hkey j]
        exact hD sid2 j ho (hheld j hh)
    · rw [aget_updInfo_ne _ _ _ _ hs] at hg
      exact hD sid2 i hg hh
  · intro sid2 i hg h1 h2 h3
    replace hg : aget (updInfo st.info sid f) sid2 = some i := hg
    show sid2 ∈ jgetL st.sockets i.key
    by_cases hs : sid2 = sid
    · subst hs
      rw [aget_updInfo_self] at hg
      cases ho : aget st.info sid2 with
      | none => rw [ho] at hg; exact absurd hg (by simp)
      | some j =>
        rw [ho] at hg
        simp only [Option.map_some'] at hg
        injection hg with hgi
        rw [← hgi] at h1 h2 h3 ⊢
        rw [hkey j]
        exact hE sid2 j ho (hheld j h1) (hdest j h2) (hhook j h3)
    · rw [aget_updInfo_ne _ _ _ _ hs] at hg
      exact hE sid2 i hg h1 h2 h3

/-- Marking a socket as held is safe when it is busy and not free. -/
theorem inv_setHeld_true (st : SysState) (sid : Nat)
    (hbusy : ∀ j, aget st.info sid = some j → sid ∈ jgetL st.sockets j.key)
    (hfree : ∀ j, aget st.info sid = some j → sid ∉ jgetL st.freeSockets j.key)
    (hInv : Inv st) : Inv (setHeld st sid true) := by
  obtain ⟨hA, hB, hC, hD, hE⟩ := hInv
  refine ⟨hA, ?_, ⟨hC.1, ?_⟩, ?_, ?_⟩
  · intro k sid2 hm
    obtain ⟨i, hg, hk⟩ := hB k sid2 hm
    show ∃ i2, aget (updInfo st.info sid (fun j => { j with held := true })) sid2 =
      some i2 ∧ i2.key = k
    by_cases hs : sid2 = sid
    · subst hs
      rw [aget_updInfo_self, hg]
      exact ⟨{ i with held := true }, rfl, hk⟩
    · rw [aget_updInfo_ne _ _ _ _ hs, hg]
      exact ⟨i, rfl, hk⟩
  · intro sid2 i hg
    replace hg : aget (updInfo st.info sid (fun j => { j with held := true })) sid2 =
      some i := hg
    by_cases hs : sid2 = sid
    · subst hs
      rw [aget_updInfo_self] at hg
      cases ho : aget st.info sid2 with
      | none => rw [ho] at hg; exact absurd hg (by simp)
      | some j => exact hC.2 sid2 j ho
    · rw [aget_updInfo_ne _ _ _ _ hs] at hg
      exact hC.2 sid2 i hg
  · intro sid2 i hg hh
    replace hg : aget (updInfo st.info sid (fun j => { j with held := true })) sid2 =
      some i := hg
    show sid2 ∉ jgetL st.freeSockets i.key
    by_cases hs : sid2 = sid
    · subst hs
      rw [aget_updInfo_self] at hg
      cases ho : aget st.info sid2 with
      | none => rw [ho] at hg; exact absurd hg (by simp)
      | some j =>
        rw [ho] at hg
        simp only [Option.map_some'] at hg
        injection hg with hgi
        rw [← hgi]
        show sid2 ∉ jgetL st.freeSockets j.key
        exact hfree j ho
    · rw [aget_updInfo_ne _ _ _ _ hs] at hg
      exact hD sid2 i hg hh
  · intro sid2 i hg h1 h2 h3
    replace hg : aget (updInfo st.info sid (fun j => { j with held := true })) sid2 =
      some i := hg
    show sid2 ∈ jgetL st.sockets i.key
    by_cases hs : sid2 = sid
    · subst hs
      rw [aget_updInfo_self] at hg
      cases ho : aget st.info sid2 with
      | none => rw [ho] at hg; exact absurd hg (by simp)
      | some j =>
        rw [ho] at hg
        simp only [Option.map_some'] at hg
        injection hg with hgi
        rw [← hgi]
        show sid2 ∈ jgetL st.sockets j.key
        exact hbusy j ho
    · rw [aget_updInfo_ne _ _ _ _ hs] at hg
      exact hE sid2 i hg h1 h2 h3

end Yakaa


namespace Yakaa

theorem inv_removeSocket (st : SysState) (sid : Nat) (b : Bool) (k : Key)
    (connOk : Bool) (st2 : SysState) (rep : Option (Nat × Nat))
    (hInv : Inv st)
    (h : removeSocket st sid b k connOk = .ok (st2, rep)) :
    InvA st2 ∧ InvB st2 ∧ InvC st2 ∧ InvD st2 ∧
    (∀ sid2 j, sid2 ≠ sid → aget st2.info sid2 = some j → j.held = true →
      j.destroyed = false → j.hookedFree = true → sid2 ∈ jgetL st2.sockets j.key) ∧
    (∀ sid3, sid3 < st.nextSid → aget st2.info sid3 = aget st.info sid3) := by
  obtain ⟨hA, hB, hC, hD, hE⟩ := hInv
  have hbs : ∀ k2, (jgetL (spliceMap st.sockets k sid) k2).Sublist
      (jgetL st.sockets k2) := by
    intro k2
    by_cases hk : k2 = k
    · subst hk; rw [jgetL_spliceMap_self]; exact List.erase_sublist _ _
    · rw [jgetL_spliceMap_ne _ _ _ _ hk]
  have hfs : ∀ k2, (jgetL (if b = true then spliceMap st.freeSockets k sid
      else st.freeSockets) k2).Sublist (jgetL st.freeSockets k2) := by
    intro k2
    cases b
    · exact List.Sublist.refl _
    · rw [if_pos rfl]
      by_cases hk : k2 = k
      · subst hk; rw [jgetL_spliceMap_self]; exact List.erase_sublist _ _
      · rw [jgetL_spliceMap_ne _ _ _ _ hk]
  unfold removeSocket at h
  cases hqm : jgetL st.requests k with
  | nil =>
    simp only [hqm] at h
    injection h with h1
    injection h1 with ha hb2
    subst ha
    refine ⟨?_, ?_, ⟨?_, ?_⟩, ?_, ?_, ?_⟩
    · intro k2
      exact ((hbs k2).append (hfs k2)).nodup (hA k2)
    · intro k2 sid2 hm
      refine hB k2 sid2 ?_
      rcases hm with hm | hm
      · exact Or.inl ((hbs k2).subset hm)
      · exact Or.inr ((hfs k2).subset hm)
    · intro k2 sid2 hm
      refine hC.1 k2 sid2 ?_
      rcases hm with hm | hm
      · exact Or.inl ((hbs k2).subset hm)
      · exact Or.inr ((hfs k2).subset hm)
    · exact hC.2
    · intro sid2 i hg hh hmem
      exact hD sid2 i hg hh ((hfs i.key).subset hmem)
    · intro sid2 j hne hg h1 h2 h3
      have hmem := hE sid2 j hg h1 h2 h3
      dsimp only
      by_cases hk : j.key = k
      · rw [hk, jgetL_spliceMap_self]
        exact (List.mem_erase_of_ne hne).mpr (hk ▸ hmem)
      · rw [jgetL_spliceMap_ne _ _ _ _ hk]
        exact hmem
    · intro sid3 hlt
      rfl
  | cons r rs =>
    simp only [hqm] at h
    cases connOk
    · exact absurd h (by simp)
    · simp only [if_true] at h
      injection h with h1
      injection h1 with ha hb2
      subst ha
      have hfreshB : ∀ k2, st.nextSid ∉ jgetL st.sockets k2 :=
        fun k2 hm => lt_irrefl _ (hC.1 k2 _ (Or.inl hm))
      have hfreshF : ∀ k2, st.nextSid ∉ jgetL st.freeSockets k2 :=
        fun k2 hm => lt_irrefl _ (hC.1 k2 _ (Or.inr hm))
      have hgi : ∀ sid2, aget (updInfo (st.info ++ [(st.nextSid, freshInfo k)])
          st.nextSid (fun j => { j with held := true })) sid2 =
          if sid2 = st.nextSid then some { freshInfo k with held := true }
          else aget st.info sid2 := by
        intro sid2
        by_cases hs : sid2 = st.nextSid
        · rw [if_pos hs, hs, aget_updInfo_self]
          have hnone : aget st.info st.nextSid = none := by
            cases ho : aget st.info st.nextSid with
            | none => rfl
            | some j => exact absurd (hC.2 _ j ho) (lt_irrefl _)
          rw [aget_append_none _ _ _ hnone]
          simp [aget]
        · rw [if_neg hs, aget_updInfo_ne _ _ _ _ hs]
          cases ho : aget st.info sid2 with
          | none =>
            rw [aget_append_none _ _ _ ho]
            simp [aget, Ne.symm hs]
          | some j => rw [aget_append_some _ _ _ _ ho]
      have hbv : jgetL (pushMap (spliceMap st.sockets k sid) k st.nextSid) k =
          (jgetL st.sockets k).erase sid ++ [st.nextSid] := by
        rw [jgetL_pushMap_self, jgetL_spliceMap_self]
      have hbvne : ∀ k2, k2 ≠ k →
          jgetL (pushMap (spliceMap st.sockets k sid) k st.nextSid) k2 =
          jgetL st.sockets k2 := by
        intro k2 hk
        rw [jgetL_pushMap_ne _ _ _ _ hk, jgetL_spliceMap_ne _ _ _ _ hk]
      refine ⟨?_, ?_, ⟨?_, ?_⟩, ?_, ?_, ?_⟩
      · intro k2
        dsimp only [setHeld]
        by_cases hk : k2 = k
        · subst hk
          rw [hbv]
          have h1 : ((jgetL st.sockets k2).erase sid ++
              jgetL (if b = true then spliceMap st.freeSockets k2 sid
                else st.freeSockets) k2).Nodup :=
            ((List.erase_sublist _ _).append (hfs k2)).nodup (hA k2)
          refine nodup_append_singleton _ _ _ h1 ?_
          intro hm
          rcases List.mem_append.mp hm with hm | hm
          · exact hfreshB k2 (List.mem_of_mem_erase hm)
          · exact hfreshF k2 ((hfs k2).subset hm)
        · rw [hbvne k2 hk]
          exact ((List.Sublist.refl _).append (hfs k2)).nodup (hA k2)
      · intro k2 sid2 hm
        dsimp only [setHeld] at hm ⊢
        rw [hgi]
        rcases hm with hm | hm
        · by_cases hk : k2 = k
          · subst hk
            rw [hbv] at hm
            rcases List.mem_append.mp hm with hm | hm
            · have hold : sid2 ∈ jgetL st.sockets k2 := List.mem_of_mem_erase hm
              have hlt : sid2 < st.nextSid := hC.1 k2 sid2 (Or.inl hold)
              rw [if_neg (Nat.ne_of_lt hlt)]
              exact hB k2 sid2 (Or.inl hold)
            · have hs2 : sid2 = st.nextSid := List.mem_singleton.mp hm
              rw [if_pos hs2]
              exact ⟨_, rfl, rfl⟩
          · rw [hbvne k2 hk] at hm
            have hlt : sid2 < st.nextSid := hC.1 k2 sid2 (Or.inl hm)
            rw [if_neg (Nat.ne_of_lt hlt)]
            exact hB k2 sid2 (Or.inl hm)
        · have hold : sid2 ∈ jgetL st.freeSockets k2 := (hfs k2).subset hm
          have hlt : sid2 < st.nextSid := hC.1 k2 sid2 (Or.inr hold)
          rw [if_neg (Nat.ne_of_lt hlt)]
          exact hB k2 sid2 (Or.inr hold)
      · intro k2 sid2 hm
        dsimp only [setHeld] at hm ⊢
        rcases hm with hm | hm
        · by_cases hk : k2 = k
          · subst hk
            rw [hbv] at hm
            rcases List.mem_append.mp hm with hm | hm
            · exact Nat.lt_succ_of_lt (hC.1 k2 sid2
                (Or.inl (List.mem_of_mem_erase hm)))
            · rw [List.mem_singleton.mp hm]
              exact Nat.lt_succ_self _
          · rw [hbvne k2 hk] at hm
            exact Nat.lt_succ_of_lt (hC.1 k2 sid2 (Or.inl hm))
        · exact Nat.lt_succ_of_lt (hC.1 k2 sid2 (Or.inr ((hfs k2).subset hm)))
      · intro sid2 i hg
        dsimp only [setHeld] at hg ⊢
        rw [hgi] at hg
        by_cases hs : sid2 = st.nextSid
        · rw [hs]
          exact Nat.lt_succ_self _
        · rw [if_neg hs] at hg
          exact Nat.lt_succ_of_lt (hC.2 sid2 i hg)
      · intro sid2 i hg hh
        dsimp only [setHeld] at hg ⊢
        rw [hgi] at hg
        by_cases hs : sid2 = st.nextSid
        · rw [if_pos hs] at hg
          injection hg with hgE
          subst hgE
          rw [hs]
          intro hm
          exact hfreshF k ((hfs k).subset hm)
        · rw [if_neg hs] at hg
          intro hm
          exact hD sid2 i hg hh ((hfs i.key).subset hm)
      · intro sid2 j hne hg h1 h2 h3
        dsimp only [setHeld] at hg ⊢
        rw [hgi] at hg
        by_cases hs : sid2 = st.nextSid
        · rw [if_pos hs] at hg
          injection hg with hgE
          subst hgE
          rw [hs]
          show st.nextSid ∈ jgetL (pushMap (spliceMap st.sockets k sid) k st.nextSid) k
          rw [hbv]
          exact List.mem_append_right _ (List.mem_singleton.mpr rfl)
        · rw [if_neg hs] at hg
          have hmem := hE sid2 j hg h1 h2 h3
          by_cases hk : j.key = k
          · rw [hk, hbv]
            exact List.mem_append_left _
              ((List.mem_erase_of_ne hne).mpr (hk ▸ hmem))
          · rw [hbvne _ hk]
            exact hmem
      · intro sid3 hlt
        dsimp only [setHeld]
        rw [hgi, if_neg (Nat.ne_of_lt hlt)]

end Yakaa

namespace Yakaa

/-- Marking a socket destroyed preserves the invariant, needing InvE only
away from the marked socket (its own InvE obligation becomes vacuous). -/
theorem inv_setDestroyed_true (st : SysState) (sid : Nat)
    (hA : InvA st) (hB : InvB st) (hC : InvC st) (hD : InvD st)
    (hEx : ∀ sid2 j, sid2 ≠ sid → aget st.info sid2 = some j → j.held = true →
      j.destroyed = false → j.hookedFree = true → sid2 ∈ jgetL st.sockets j.key) :
    Inv (setDestroyed st sid true) := by
  refine ⟨hA, ?_, ⟨hC.1, ?_⟩, ?_, ?_⟩
  · intro k sid2 hm
    obtain ⟨i, hg, hk⟩ := hB k sid2 hm
    show ∃ i2, aget (updInfo st.info sid (fun j => { j with destroyed := true })) sid2 =
      some i2 ∧ i2.key = k
    by_cases hs : sid2 = sid
    · subst hs
      rw [aget_updInfo_self, hg]
      exact ⟨{ i with destroyed := true }, rfl, hk⟩
    · rw [aget_updInfo_ne _ _ _ _ hs, hg]
      exact ⟨i, rfl, hk⟩
  · intro sid2 i hg
    replace hg : aget (updInfo st.info sid (fun j => { j with destroyed := true })) sid2 =
      some i := hg
    by_cases hs : sid2 = sid
    · subst hs
      rw [aget_updInfo_self] at hg
      cases ho : aget st.info sid2 with
      | none => rw [ho] at hg; exact absurd hg (by simp)
      | some j => exact hC.2 sid2 j ho
    · rw [aget_updInfo_ne _ _ _ _ hs] at hg
      exact hC.2 sid2 i hg
  · intro sid2 i hg hh
    replace hg : aget (updInfo st.info sid (fun j => { j with destroyed := true })) sid2 =
      some i := hg
    show sid2 ∉ jgetL st.freeSockets i.key
    by_cases hs : sid2 = sid
    · subst hs
      rw [aget_updInfo_self] at hg
      cases ho : aget st.info sid2 with
      | none => rw [ho] at hg; exact absurd hg (by simp)
      | some j =>
        rw [ho] at hg
        simp only [Option.map_some'] at hg
        injection hg with hgi
        rw [← hgi] at hh ⊢
        show sid2 ∉ jgetL st.freeSockets j.key
        exact hD sid2 j ho hh
    · rw [aget_updInfo_ne _ _ _ _ hs] at hg
      exact hD sid2 i hg hh
  · intro sid2 i hg h1 h2 h3
    replace hg : aget (updInfo st.info sid (fun j => { j with destroyed := true })) sid2 =
      some i := hg
    show sid2 ∈ jgetL st.sockets i.key
    by_cases hs : sid2 = sid
    · subst hs
      rw [aget_updInfo_self] at hg
      cases ho : aget st.info sid2 with
      | none => rw [ho] at hg; exact absurd hg (by simp)
      | some j =>
        rw [ho] at hg
        simp only [Option.map_some'] at hg
        injection hg with hgi
        rw [← hgi] at h2
        exact absurd h2 (by simp)
    · rw [aget_updInfo_ne _ _ _ _ hs] at hg
      exact hEx sid2 i hs hg h1 h2 h3

/-- The `removeSocket` + `socket.destroy()` epilogue restores the full
invariant from the post-`removeSocket` facts. -/
theorem inv_after_destroy (st1 : SysState) (sid : Nat)
    (hA : InvA st1) (hB : InvB st1) (hC : InvC st1) (hD : InvD st1)
    (hEx : ∀ sid2 j, sid2 ≠ sid → aget st1.info sid2 = some j → j.held = true →
      j.destroyed = false → j.hookedFree = true → sid2 ∈ jgetL st1.sockets j.key) :
    Inv (setHeld (setDestroyed st1 sid true) sid false) := by
  have h3 := inv_setDestroyed_true st1 sid hA hB hC hD hEx
  exact inv_updInfo_safe _ sid _ (fun j => rfl) (fun j h => absurd h (by simp))
    (fun j h => h) (fun j h => h) h3

theorem inv_freeDestroyPath (st : SysState) (sid : Nat) (sdestroyed : Bool)
    (k : Key) (connOk : Bool) (st2 : SysState) (out : RelOutcome)
    (hInv : Inv st)
    (h : freeDestroyPath st sid sdestroyed k connOk = .ok (st2, out)) : Inv st2 := by
  unfold freeDestroyPath at h
  cases hrm : removeSocket st sid sdestroyed k connOk with
  | error e =>
    rw [hrm] at h
    exact absurd h (by simp)
  | ok p =>
    obtain ⟨st1, rep⟩ := p
    rw [hrm] at h
    injection h with h1
    injection h1 with ha hb
    subst ha
    obtain ⟨hA2, hB2, hC2, hD2, hEx, _⟩ :=
      inv_removeSocket st sid sdestroyed k connOk st1 rep hInv hrm
    exact inv_after_destroy st1 sid hA2 hB2 hC2 hD2 hEx

/-- The state left by the pooling branch of the `free` handler (busy entry
spliced, socket appended to the aliased free array, `held`/`_httpMessage`
cleared) satisfies the invariant. -/
theorem inv_pool_state (st : SysState) (sid : Nat) (k : Key) (i : SockInfo)
    (hg : aget st.info sid = some i) (hkey : i.key = k) (hheld : i.held = true)
    (hInv : Inv st) :
    Inv { sockets := spliceMap st.sockets k sid,
          freeSockets := aset (aset st.freeSockets k (jgetL st.freeSockets k)) k
            (jgetL st.freeSockets k ++ [sid]),
          requests := st.requests,
          info := updInfo (updInfo st.info sid (fun j => { j with held := false }))
            sid (fun j => { j with httpMessage := none }),
          nextSid := st.nextSid, nextRid := st.nextRid } := by
  obtain ⟨hA, hB, hC, hD, hE⟩ := hInv
  have hdf2 : sid ∉ jgetL st.freeSockets k := by
    have hx := hD sid i hg hheld
    rwa [hkey] at hx
  have hgiP : ∀ sid2, aget (updInfo (updInfo st.info sid
      (fun j => { j with held := false })) sid
      (fun j => { j with httpMessage := none })) sid2 =
      if sid2 = sid then some { i with held := false, httpMessage := none }
      else aget st.info sid2 := by
    intro sid2
    by_cases hs : sid2 = sid
    · rw [if_pos hs, hs, aget_updInfo_self, aget_updInfo_self, hg]
      rfl
    · rw [if_neg hs, aget_updInfo_ne _ _ _ _ hs, aget_updInfo_ne _ _ _ _ hs]
  have hbk : ∀ k2, jgetL (spliceMap st.sockets k sid) k2 =
      if k2 = k then (jgetL st.sockets k).erase sid else jgetL st.sockets k2 := by
    intro k2
    by_cases hk : k2 = k
    · rw [if_pos hk, hk, jgetL_spliceMap_self]
    · rw [if_neg hk, jgetL_spliceMap_ne _ _ _ _ hk]
  have hfk : ∀ k2, jgetL (aset (aset st.freeSockets k (jgetL st.freeSockets k)) k
      (jgetL st.freeSockets k ++ [sid])) k2 =
      if k2 = k then jgetL st.freeSockets k ++ [sid] else jgetL st.freeSockets k2 := by
    intro k2
    by_cases hk : k2 = k
    · rw [if_pos hk, hk]
      exact jgetL_aset_self _ _ _
    · rw [if_neg hk, jgetL_aset_ne _ _ _ _ hk, jgetL_aset_ne _ _ _ _ hk]
  refine ⟨?_, ?_, ⟨?_, ?_⟩, ?_, ?_⟩
  · intro k2
    dsimp only
    rw [hbk, hfk]
    by_cases hk : k2 = k
    · rw [if_pos hk, if_pos hk]
      exact nodup_pool_move _ _ _ (hA k) hdf2
    · rw [if_neg hk, if_neg hk]
      exact hA k2
  · intro k2 sid2 hm
    dsimp only at hm ⊢
    rw [hbk, hfk] at hm
    by_cases hk : k2 = k
    · rw [if_pos hk, if_pos hk] at hm
      rcases hm with hm | hm
      · obtain ⟨i2, hg2, hk2⟩ := hB k sid2 (Or.inl (List.mem_of_mem_erase hm))
        rw [hgiP]
        by_cases hs : sid2 = sid
        · rw [if_pos hs]
          refine ⟨_, rfl, ?_⟩
          show i.key = k2
          rw [hkey, hk]
        · rw [if_neg hs]
          exact ⟨i2, hg2, by rw [hk2, hk]⟩
      · rcases List.mem_append.mp hm with hm | hm
        · obtain ⟨i2, hg2, hk2⟩ := hB k sid2 (Or.inr hm)
          rw [hgiP]
          by_cases hs : sid2 = sid
          · rw [if_pos hs]
            refine ⟨_, rfl, ?_⟩
            show i.key = k2
            rw [hkey, hk]
          · rw [if_neg hs]
            exact ⟨i2, hg2, by rw [hk2, hk]⟩
        · have hs : sid2 = sid := List.mem_singleton.mp hm
          rw [hgiP, if_pos hs]
          refine ⟨_, rfl, ?_⟩
          show i.key = k2
          rw [hkey, hk]
    · rw [if_neg hk, if_neg hk] at hm
      obtain ⟨i2, hg2, hk2⟩ := hB k2 sid2 hm
      rw [hgiP]
      by_cases hs : sid2 = sid
      · rw [if_pos hs]
        subst hs
        rw [hg] at hg2
        injection hg2 with he
        refine ⟨_, rfl, ?_⟩
        show i.key = k2
        rw [he]
        exact hk2
      · rw [if_neg hs]
        exact ⟨i2, hg2, hk2⟩
  · intro k2 sid2 hm
    dsimp only at hm ⊢
    rw [hbk, hfk] at hm
    by_cases hk : k2 = k
    · rw [if_pos hk, if_pos hk] at hm
      rcases hm with hm | hm
      · exact hC.1 k sid2 (Or.inl (List.mem_of_mem_erase hm))
      · rcases List.mem_append.mp hm with hm | hm
        · exact hC.1 k sid2 (Or.inr hm)
        · rw [List.mem_singleton.mp hm]
          exact hC.2 sid i hg
    · rw [if_neg hk, if_neg hk] at hm
      exact hC.1 k2 sid2 hm
  · intro sid2 i2 hg2
    dsimp only at hg2 ⊢
    rw [hgiP] at hg2
    by_cases hs : sid2 = sid
    · rw [hs]
      exact hC.2 sid i hg
    · rw [if_neg hs] at hg2
      exact hC.2 sid2 i2 hg2
  · intro sid2 i2 hg2 hh2
    dsimp only at hg2 ⊢
    rw [hgiP] at hg2
    by_cases hs : sid2 = sid
    · rw [if_pos hs] at hg2
      injection hg2 with he
      rw [← he] at hh2
      exact absurd hh2 (by simp)
    · rw [if_neg hs] at hg2
      have hold := hD sid2 i2 hg2 hh2
      rw [hfk]
      by_cases hk : i2.key = k
      · rw [if_pos hk]
        intro hm
        rcases List.mem_append.mp hm with hm | hm
        · exact hold (by rw [hk]; exact hm)
        · exact hs (List.mem_singleton.mp hm)
      · rw [if_neg hk]
        exact hold
  · intro sid2 i2 hg2 h1 h2 h3
    dsimp only at hg2 ⊢
    rw [hgiP] at hg2
    by_cases hs : sid2 = sid
    · rw [if_pos hs] at hg2
      injection hg2 with he
      rw [← he] at h1
      exact absurd h1 (by simp)
    · rw [if_neg hs] at hg2
      have hold := hE sid2 i2 hg2 h1 h2 h3
      rw [hbk]
      by_cases hk : i2.key = k
      · rw [if_pos hk]
        exact (List.mem_erase_of_ne hs).mpr (by rw [← hk]; exact hold)
      · rw [if_neg hk]
        exact hold

/-- The agent's `free` handler preserves the invariant, given that the
released socket is registered, held, filed under the emitted key, and has
the handler attached. -/
theorem inv_onFree (cfg : Config) (st : SysState) (sid : Nat) (sdestroyed : Bool)
    (msg : Option Bool) (k : Key) (connOk : Bool) (st2 : SysState) (out : RelOutcome)
    (i : SockInfo)
    (hg : aget st.info sid = some i) (hkey : i.key = k)
    (hheld : i.held = true) (hdest : sdestroyed = i.destroyed)
    (hhook : i.hookedFree = true)
    (hInv : Inv st)
    (h : onFree cfg st sid sdestroyed msg k connOk = .ok (st2, out)) : Inv st2 := by
  unfold onFree at h
  split at h
  · rename_i hcond
    have hsf : sdestroyed = false := by
      cases sdestroyed
      · rfl
      · exact absurd rfl hcond.1
    have hdf : i.destroyed = false := by
      rw [← hdest]
      exact hsf
    split at h
    · injection h with h1
      injection h1 with ha hb
      subst ha
      exact hInv
    · injection h with h1
      injection h1 with ha hb
      subst ha
      refine inv_transfer (setHeld st sid true) _ (fun k2 => rfl) (fun k2 => rfl)
        rfl rfl ?_
      refine inv_setHeld_true st sid ?_ ?_ hInv
      · intro j hj
        rw [hg] at hj
        injection hj with hj2
        subst hj2
        exact hInv.2.2.2.2 sid i hg hheld hdf hhook
      · intro j hj
        rw [hg] at hj
        injection hj with hj2
        subst hj2
        exact hInv.2.2.2.1 sid i hg hheld
  · rename_i hcond
    split at h
    · rename_i ka hmsg
      split at h
      · rename_i hka
        have hsf : sdestroyed = false := by
          cases sdestroyed
          · rfl
          · exact absurd rfl hka.2.1
        subst hsf
        have hq : jgetL st.requests k = [] := by
          by_contra hne
          exact hcond ⟨by simp, hne⟩
        have hrm := removeSocket_queueEmpty (setMsg (setHeld { st with
            freeSockets := aset st.freeSockets k (jgetL st.freeSockets k) } sid false)
            sid none) sid false k connOk hq
        simp only [hrm, Bool.false_eq_true, if_false] at h
        split at h
        · exact inv_freeDestroyPath st sid false k connOk st2 out hInv h
        · injection h with h1
          injection h1 with ha hb
          subst ha
          exact inv_pool_state st sid k i hg hkey hheld ⟨hInv.1, hInv.2.1, hInv.2.2.1,
            hInv.2.2.2.1, hInv.2.2.2.2⟩
      · exact inv_freeDestroyPath st sid sdestroyed k connOk st2 out hInv h
    · exact inv_freeDestroyPath st sid sdestroyed k connOk st2 out hInv h

end Yakaa

namespace Yakaa

/-- Registering a fresh socket (busy, held) under its key preserves the
invariant. -/
theorem inv_create_state (st : SysState) (k : Key) (hInv : Inv st) :
    Inv (setHeld { st with
      sockets := pushMap st.sockets k st.nextSid,
      nextSid := st.nextSid + 1,
      info := st.info ++ [(st.nextSid, freshInfo k)] } st.nextSid true) := by
  obtain ⟨hA, hB, hC, hD, hE⟩ := hInv
  have hfreshB : ∀ k2, st.nextSid ∉ jgetL st.sockets k2 :=
    fun k2 hm => lt_irrefl _ (hC.1 k2 _ (Or.inl hm))
  have hfreshF : ∀ k2, st.nextSid ∉ jgetL st.freeSockets k2 :=
    fun k2 hm => lt_irrefl _ (hC.1 k2 _ (Or.inr hm))
  have hgi : ∀ sid2, aget (updInfo (st.info ++ [(st.nextSid, freshInfo k)])
      st.nextSid (fun j => { j with held := true })) sid2 =
      if sid2 = st.nextSid then some { freshInfo k with held := true }
      else aget st.info sid2 := by
    intro sid2
    by_cases hs : sid2 = st.nextSid
    · rw [if_pos hs, hs, aget_updInfo_self]
      have hnone : aget st.info st.nextSid = none := by
        cases ho : aget st.info st.nextSid with
        | none => rfl
        | some j => exact absurd (hC.2 _ j ho) (lt_irrefl _)
      rw [aget_append_none _ _ _ hnone]
      simp [aget]
    · rw [if_neg hs, aget_updInfo_ne _ _ _ _ hs]
      cases ho : aget st.info sid2 with
      | none =>
        rw [aget_append_none _ _ _ ho]
        simp [aget, Ne.symm hs]
      | some j => rw [aget_append_some _ _ _ _ ho]
  have hbv : ∀ k2, jgetL (pushMap st.sockets k st.nextSid) k2 =
      if k2 = k then jgetL st.sockets k ++ [st.nextSid] else jgetL st.sockets k2 := by
    intro k2
    by_cases hk : k2 = k
    · rw [if_pos hk, hk, jgetL_pushMap_self]
    · rw [if_neg hk, jgetL_pushMap_ne _ _ _ _ hk]
  refine ⟨?_, ?_, ⟨?_, ?_⟩, ?_, ?_⟩
  · intro k2
    dsimp only [setHeld]
    rw [hbv]
    by_cases hk : k2 = k
    · rw [if_pos hk, hk]
      refine nodup_append_singleton _ _ _ (hA k) ?_
      intro hm
      rcases List.mem_append.mp hm with hm | hm
      · exact hfreshB k hm
      · exact hfreshF k hm
    · rw [if_neg hk]
      exact hA k2
  · intro k2 sid2 hm
    dsimp only [setHeld] at hm ⊢
    rw [hbv] at hm
    rw [hgi]
    by_cases hk : k2 = k
    · rw [if_pos hk] at hm
      rcases hm with hm | hm
      · rcases List.mem_append.mp hm with hm | hm
        · have hlt : sid2 < st.nextSid := hC.1 k2 sid2 (Or.inl (hk ▸ hm))
          rw [if_neg (Nat.ne_of_lt hlt)]
          exact hB k2 sid2 (Or.inl (hk ▸ hm))
        · rw [if_pos (List.mem_singleton.mp hm)]
          refine ⟨_, rfl, ?_⟩
          show (freshInfo k).key = k2
          rw [hk]
          rfl
      · have hlt : sid2 < st.nextSid := hC.1 k2 sid2 (Or.inr hm)
        rw [if_neg (Nat.ne_of_lt hlt)]
        exact hB k2 sid2 (Or.inr hm)
    · rw [if_neg hk] at hm
      rcases hm with hm | hm
      · have hlt : sid2 < st.nextSid := hC.1 k2 sid2 (Or.inl hm)
        rw [if_neg (Nat.ne_of_lt hlt)]
        exact hB k2 sid2 (Or.inl hm)
      · have hlt : sid2 < st.nextSid := hC.1 k2 sid2 (Or.inr hm)
        rw [if_neg (Nat.ne_of_lt hlt)]
        exact hB k2 sid2 (Or.inr hm)
  · intro k2 sid2 hm
    dsimp only [setHeld] at hm ⊢
    rw [hbv] at hm
    by_cases hk : k2 = k
    · rw [if_pos hk] at hm
      rcases hm with hm | hm
      · rcases List.mem_append.mp hm with hm | hm
        · exact Nat.lt_succ_of_lt (hC.1 k2 sid2 (Or.inl (hk ▸ hm)))
        · rw [List.mem_singleton.mp hm]
          exact Nat.lt_succ_self _
      · exact Nat.lt_succ_of_lt (hC.1 k2 sid2 (Or.inr hm))
    · rw [if_neg hk] at hm
      rcases hm with hm | hm
      · exact Nat.lt_succ_of_lt (hC.1 k2 sid2 (Or.inl hm))
      · exact Nat.lt_succ_of_lt (hC.1 k2 sid2 (Or.inr hm))
  · intro sid2 i hg
    dsimp only [setHeld] at hg ⊢
    rw [hgi] at hg
    by_cases hs : sid2 = st.nextSid
    · rw [hs]
      exact Nat.lt_succ_self _
    · rw [if_neg hs] at hg
      exact Nat.lt_succ_of_lt (hC.2 sid2 i hg)
  · intro sid2 i hg hh
    dsimp only [setHeld] at hg ⊢
    rw [hgi] at hg
    by_cases hs : sid2 = st.nextSid
    · rw [if_pos hs] at hg
      injection hg with hgE
      subst hgE
      rw [hs]
      show st.nextSid ∉ jgetL st.freeSockets (freshInfo k).key
      exact hfreshF _
    · rw [if_neg hs] at hg
      exact hD sid2 i hg hh
  · intro sid2 i hg h1 h2 h3
    dsimp only [setHeld] at hg ⊢
    rw [hgi] at hg
    by_cases hs : sid2 = st.nextSid
    · rw [if_pos hs] at hg
      injection hg with hgE
      subst hgE
      rw [hs]
      show st.nextSid ∈ jgetL (pushMap st.sockets k st.nextSid) (freshInfo k).key
      have hkl : (freshInfo k).key = k := rfl
      rw [hkl, jgetL_pushMap_self]
      exact List.mem_append_right _ (List.mem_singleton.mpr rfl)
    · rw [if_neg hs] at hg
      have hmem := hE sid2 i hg h1 h2 h3
      rw [hbv]
      by_cases hk : i.key = k
      · rw [if_pos hk]
        exact List.mem_append_left _ (by rw [← hk]; exact hmem)
      · rw [if_neg hk]
        exact hmem

/-- `addRequest` preserves the invariant for every outcome. -/
theorem inv_addRequest (cfg : Config) (st : SysState) (k : Key) (connOk : Bool)
    (hInv : Inv st) : Inv (addRequest cfg st k connOk).1 := by
  obtain ⟨hA, hB, hC, hD, hE⟩ := hInv
  have hens : ∀ k2, jgetL (if (aget st.sockets k).isNone then aset st.sockets k []
      else st.sockets) k2 = jgetL st.sockets k2 := by
    intro k2
    by_cases hk : k2 = k
    · rw [hk]; exact jgetL_ensure_self _ _
    · exact jgetL_ensure_ne _ _ _ hk
  have hInv1 : Inv { st with
      nextRid := st.nextRid + 1,
      sockets := if (aget st.sockets k).isNone then aset st.sockets k [] else st.sockets } :=
    inv_transfer st _ hens (fun k2 => rfl) rfl rfl ⟨hA, hB, hC, hD, hE⟩
  cases hfl : jgetL st.freeSockets k with
  | nil =>
    unfold addRequest
    simp only [hfl]
    by_cases hlim : ltMax (([] : List Nat).length +
        (jgetL (if (aget st.sockets k).isNone then aset st.sockets k []
          else st.sockets) k).length) cfg.maxSockets = true
    · rw [if_pos hlim]
      cases connOk with
      | true =>
        rw [if_pos rfl]
        exact inv_create_state _ k hInv1
      | false =>
        rw [if_neg (by simp)]
        exact hInv1
    · rw [if_neg hlim]
      exact inv_transfer _ _ (fun k2 => rfl) (fun k2 => rfl) rfl rfl hInv1
  | cons s rest =>
    unfold addRequest
    simp only [hfl]
    have hAk := hA k
    rw [hfl] at hAk
    have hsrest : s ∉ rest :=
      (List.nodup_cons.mp (List.nodup_append.mp hAk).2.1).1
    obtain ⟨is, hgs, hks⟩ := hB k s (Or.inr (by rw [hfl]; exact List.mem_cons_self s rest))
    have hgi : ∀ sid2, aget (updInfo st.info s (fun j => { j with held := true })) sid2 =
        if sid2 = s then some { is with held := true } else aget st.info sid2 := by
      intro sid2
      by_cases hs : sid2 = s
      · rw [if_pos hs, hs, aget_updInfo_self, hgs]
        rfl
      · rw [if_neg hs, aget_updInfo_ne _ _ _ _ hs]
    have hbv : ∀ k2, jgetL (pushMap (if (aget st.sockets k).isNone then
        aset st.sockets k [] else st.sockets) k s) k2 =
        if k2 = k then jgetL st.sockets k ++ [s] else jgetL st.sockets k2 := by
      intro k2
      by_cases hk : k2 = k
      · rw [if_pos hk, hk, jgetL_pushMap_self, hens]
      · rw [if_neg hk, jgetL_pushMap_ne _ _ _ _ hk, hens]
    have hfv : ∀ k2, jgetL (if rest = [] then
        adel st.freeSockets k else aset st.freeSockets k rest) k2 =
        if k2 = k then rest else jgetL st.freeSockets k2 := by
      intro k2
      by_cases hk : k2 = k
      · rw [if_pos hk, hk]
        by_cases hr : rest = []
        · rw [if_pos hr, jgetL_adel_self, hr]
        · rw [if_neg hr, jgetL_aset_self]
      · rw [if_neg hk]
        by_cases hr : rest = []
        · rw [if_pos hr, jgetL_adel_ne _ _ _ hk]
        · rw [if_neg hr, jgetL_aset_ne _ _ _ _ hk]
    refine ⟨?_, ?_, ⟨?_, ?_⟩, ?_, ?_⟩
    · intro k2
      dsimp only [setHeld]
      rw [hbv, hfv]
      by_cases hk : k2 = k
      · rw [if_pos hk, if_pos hk]
        rw [List.append_cons] at hAk
        exact hAk
      · rw [if_neg hk, if_neg hk]
        exact hA k2
    · intro k2 sid2 hm
      dsimp only [setHeld] at hm ⊢
      rw [hbv, hfv] at hm
      rw [hgi]
      by_cases hk : k2 = k
      · rw [if_pos hk, if_pos hk] at hm
        rcases hm with hm | hm
        · rcases List.mem_append.mp hm with hm | hm
          · obtain ⟨i2, hg2, hk2⟩ := hB k sid2 (Or.inl hm)
            by_cases hs : sid2 = s
            · rw [if_pos hs]
              refine ⟨_, rfl, ?_⟩
              show is.key = k2
              rw [hks, hk]
            · rw [if_neg hs]
              exact ⟨i2, hg2, by rw [hk2, hk]⟩
          · rw [if_pos (List.mem_singleton.mp hm)]
            refine ⟨_, rfl, ?_⟩
            show is.key = k2
            rw [hks, hk]
        · have hmf : sid2 ∈ jgetL st.freeSockets k := by
            rw [hfl]
            exact List.mem_cons_of_mem s hm
          obtain ⟨i2, hg2, hk2⟩ := hB k sid2 (Or.inr hmf)
          by_cases hs : sid2 = s
          · rw [if_pos hs]
            refine ⟨_, rfl, ?_⟩
            show is.key = k2
            rw [hks, hk]
          · rw [if_neg hs]
            exact ⟨i2, hg2, by rw [hk2, hk]⟩
      · rw [if_neg hk, if_neg hk] at hm
        obtain ⟨i2, hg2, hk2⟩ := hB k2 sid2 hm
        by_cases hs : sid2 = s
        · rw [if_pos hs]
          subst hs
          rw [hgs] at hg2
          injection hg2 with he
          refine ⟨_, rfl, ?_⟩
          show is.key = k2
          rw [he]
          exact hk2
        · rw [if_neg hs]
          exact ⟨i2, hg2, hk2⟩
    · intro k2 sid2 hm
      dsimp only [setHeld] at hm ⊢
      rw [hbv, hfv] at hm
      by_cases hk : k2 = k
      · rw [if_pos hk, if_pos hk] at hm
        rcases hm with hm | hm
        · rcases List.mem_append.mp hm with hm | hm
          · exact hC.1 k sid2 (Or.inl hm)
          · rw [List.mem_singleton.mp hm]
            exact hC.2 s is hgs
        · refine hC.1 k sid2 (Or.inr ?_)
          rw [hfl]
          exact List.mem_cons_of_mem s hm
      · rw [if_neg hk, if_neg hk] at hm
        exact hC.1 k2 sid2 hm
    · intro sid2 i hg
      dsimp only [setHeld] at hg ⊢
      rw [hgi] at hg
      by_cases hs : sid2 = s
      · rw [hs]
        exact hC.2 s is hgs
      · rw [if_neg hs] at hg
        exact hC.2 sid2 i hg
    · intro sid2 i hg hh
      dsimp only [setHeld] at hg ⊢
      rw [hgi] at hg
      by_cases hs : sid2 = s
      · rw [if_pos hs] at hg
        injection hg with he
        subst he
        rw [hs]
        show s ∉ jgetL (if rest = [] then adel st.freeSockets k
          else aset st.freeSockets k rest) is.key
        rw [hfv]
        by_cases hk : is.key = k
        · rw [if_pos hk]
          exact hsrest
        · exact absurd hks hk
      · rw [if_neg hs] at hg
        have hold := hD sid2 i hg hh
        rw [hfv]
        by_cases hk : i.key = k
        · rw [if_pos hk]
          intro hm
          refine hold ?_
          rw [hk, hfl]
          exact List.mem_cons_of_mem s hm
        · rw [if_neg hk]
          exact hold
    · intro sid2 i hg h1 h2 h3
      dsimp only [setHeld] at hg ⊢
      rw [hgi] at hg
      by_cases hs : sid2 = s
      · rw [if_pos hs] at hg
        injection hg with he
        subst he
        rw [hs]
        show s ∈ jgetL (pushMap (if (aget st.sockets k).isNone then
          aset st.sockets k [] else st.sockets) k s) is.key
        rw [hbv]
        rw [if_pos hks]
        exact List.mem_append_right _ (List.mem_singleton.mpr rfl)
      · rw [if_neg hs] at hg
        have hmem := hE sid2 i hg h1 h2 h3
        rw [hbv]
        by_cases hk : i.key = k
        · rw [if_pos hk]
          exact List.mem_append_left _ (by rw [← hk]; exact hmem)
        · rw [if_neg hk]
          exact hmem

/-- The agent's `tunnelError` handler preserves the invariant. -/
theorem inv_onTunnelErrorAgent (st : SysState) (k : Key) (st1 : SysState)
    (r : Option Nat) (hInv : Inv st)
    (h : onTunnelErrorAgent st k = .ok (st1, r)) : Inv st1 := by
  unfold onTunnelErrorAgent at h
  split at h
  · exact absurd h (by simp)
  · split at h
    · injection h with h1
      injection h1 with ha hb
      subst ha
      exact hInv
    · injection h with h1
      injection h1 with ha hb
      subst ha
      exact inv_transfer st _ (fun k2 => rfl) (fun k2 => rfl) rfl rfl hInv

/-- Detaching the `close`/`free`/`agentRemove` hooks preserves the invariant,
needing InvE only away from the touched socket. -/
theorem inv_clear_hooks (st : SysState) (sid : Nat)
    (hA : InvA st) (hB : InvB st) (hC : InvC st) (hD : InvD st)
    (hEx : ∀ sid2 j, sid2 ≠ sid → aget st.info sid2 = some j → j.held = true →
      j.destroyed = false → j.hookedFree = true → sid2 ∈ jgetL st.sockets j.key) :
    Inv { st with info := updInfo st.info sid (fun i => { i with hookedClose := false, hookedFree := false, hookedAgentRemove := false }) } := by
  refine ⟨hA, ?_, ⟨hC.1, ?_⟩, ?_, ?_⟩
  · intro k sid2 hm
    obtain ⟨i, hg, hk⟩ := hB k sid2 hm
    show ∃ i2, aget (updInfo st.info sid (fun i => { i with hookedClose := false, hookedFree := false, hookedAgentRemove := false })) sid2 = some i2 ∧ i2.key = k
    by_cases hs : sid2 = sid
    · subst hs
      rw [aget_updInfo_self, hg]
      exact ⟨_, rfl, hk⟩
    · rw [aget_updInfo_ne _ _ _ _ hs, hg]
      exact ⟨i, rfl, hk⟩
  · intro sid2 i hg
    replace hg : aget (updInfo st.info sid (fun i => { i with hookedClose := false, hookedFree := false, hookedAgentRemove := false })) sid2 = some i := hg
    by_cases hs : sid2 = sid
    · subst hs
      rw [aget_updInfo_self] at hg
      cases ho : aget st.info sid2 with
      | none => rw [ho] at hg; exact absurd hg (by simp)
      | some j => exact hC.2 sid2 j ho
    · rw [aget_updInfo_ne _ _ _ _ hs] at hg
      exact hC.2 sid2 i hg
  · intro sid2 i hg hh
    replace hg : aget (updInfo st.info sid (fun i => { i with hookedClose := false, hookedFree := false, hookedAgentRemove := false })) sid2 = some i := hg
    show sid2 ∉ jgetL st.freeSockets i.key
    by_cases hs : sid2 = sid
    · subst hs
      rw [aget_updInfo_self] at hg
      cases ho : aget st.info sid2 with
      | none => rw [ho] at hg; exact absurd hg (by simp)
      | some j =>
        rw [ho] at hg
        simp only [Option.map_some'] at hg
        injection hg with hgi
        rw [← hgi] at hh ⊢
        show sid2 ∉ jgetL st.freeSockets j.key
        exact hD sid2 j ho hh
    · rw [aget_updInfo_ne _ _ _ _ hs] at hg
      exact hD sid2 i hg hh
  · intro sid2 i hg h1 h2 h3
    replace hg : aget (updInfo st.info sid (fun i => { i with hookedClose := false, hookedFree := false, hookedAgentRemove := false })) sid2 = some i := hg
    show sid2 ∈ jgetL st.sockets i.key
    by_cases hs : sid2 = sid
    · subst hs
      rw [aget_updInfo_self] at hg
      cases ho : aget st.info sid2 with
      | none => rw [ho] at hg; exact absurd hg (by simp)
      | some j =>
        rw [ho] at hg
        simp only [Option.map_some'] at hg
        injection hg with hgi
        rw [← hgi] at h3
        exact absurd h3 (by simp)
    · rw [aget_updInfo_ne _ _ _ _ hs] at hg
      exact hEx sid2 i hs hg h1 h2 h3

/-- The `agentRemove` hook preserves the invariant. -/
theorem inv_onAgentRemove (st : SysState) (sid : Nat) (sdestroyed : Bool)
    (k : Key) (connOk : Bool) (st1 : SysState) (hInv : Inv st)
    (h : onAgentRemove st sid sdestroyed k connOk = .ok st1) : Inv st1 := by
  unfold onAgentRemove at h
  cases hrm : removeSocket st sid sdestroyed k connOk with
  | error e =>
    rw [hrm] at h
    exact absurd h (by simp)
  | ok p =>
    obtain ⟨stR, rep⟩ := p
    rw [hrm] at h
    injection h with h1
    subst h1
    obtain ⟨hA2, hB2, hC2, hD2, hEx, _⟩ :=
      inv_removeSocket st sid sdestroyed k connOk stR rep hInv hrm
    exact inv_clear_hooks stR sid hA2 hB2 hC2 hD2 hEx

/-- `Agent.prototype.destroy` preserves the invariant. -/
theorem inv_destroyAgent (st : SysState) (hInv : Inv st) : Inv (destroyAgent st) := by
  obtain ⟨hA, hB, hC, hD, hE⟩ := hInv
  refine ⟨hA, ?_, ⟨hC.1, ?_⟩, ?_, ?_⟩
  · intro k sid2 hm
    obtain ⟨i, hg, hk⟩ := hB k sid2 hm
    show ∃ i2, aget (markDestroyed st.info (trackedSids st)) sid2 = some i2 ∧ i2.key = k
    rw [aget_markDestroyed, hg]
    by_cases hm2 : sid2 ∈ trackedSids st
    · simp only [Option.map_some', if_pos hm2]
      exact ⟨_, rfl, hk⟩
    · simp only [Option.map_some', if_neg hm2]
      exact ⟨i, rfl, hk⟩
  · intro sid2 i hg
    replace hg : aget (markDestroyed st.info (trackedSids st)) sid2 = some i := hg
    rw [aget_markDestroyed] at hg
    cases ho : aget st.info sid2 with
    | none => rw [ho] at hg; exact absurd hg (by simp)
    | some j => exact hC.2 sid2 j ho
  · intro sid2 i hg hh
    replace hg : aget (markDestroyed st.info (trackedSids st)) sid2 = some i := hg
    rw [aget_markDestroyed] at hg
    show sid2 ∉ jgetL st.freeSockets i.key
    cases ho : aget st.info sid2 with
    | none => rw [ho] at hg; exact absurd hg (by simp)
    | some j =>
      rw [ho] at hg
      simp only [Option.map_some'] at hg
      injection hg with hgi
      by_cases hm2 : sid2 ∈ trackedSids st
      · rw [if_pos hm2] at hgi
        rw [← hgi] at hh ⊢
        show sid2 ∉ jgetL st.freeSockets j.key
        exact hD sid2 j ho hh
      · rw [if_neg hm2] at hgi
        rw [← hgi] at hh ⊢
        exact hD sid2 j ho hh
  · intro sid2 i hg h1 h2 h3
    replace hg : aget (markDestroyed st.info (trackedSids st)) sid2 = some i := hg
    rw [aget_markDestroyed] at hg
    show sid2 ∈ jgetL st.sockets i.key
    cases ho : aget st.info sid2 with
    | none => rw [ho] at hg; exact absurd hg (by simp)
    | some j =>
      rw [ho] at hg
      simp only [Option.map_some'] at hg
      injection hg with hgi
      by_cases hm2 : sid2 ∈ trackedSids st
      · rw [if_pos hm2] at hgi
        rw [← hgi] at h2
        exact absurd h2 (by simp)
      · rw [if_neg hm2] at hgi
        rw [← hgi] at h1 h2 h3 ⊢
        exact hE sid2 j ho h1 h2 h3

end Yakaa

namespace Yakaa

/-- Every event handler of the agent preserves the pool invariant. -/
theorem inv_step (cfg : Config) (op : Op) (st st2 : SysState)
    (hInv : Inv st) (h : stepFn cfg op st = some st2) : Inv st2 := by
  cases op with
  | acquire k connOk =>
    simp only [stepFn] at h
    injection h with h1
    subst h1
    exact inv_addRequest cfg st k connOk hInv
  | finish sid ka connOk =>
    simp only [stepFn] at h
    cases hgi0 : aget st.info sid with
    | none => rw [hgi0] at h; exact absurd h (by simp)
    | some i =>
      simp only [hgi0] at h
      by_cases hgd : i.hookedFree = true ∧ i.held = true
      · rw [if_pos hgd] at h
        cases hof : onFree cfg (setMsg st sid (some ka)) sid i.destroyed (some ka)
            i.key connOk with
        | error e => simp only [hof] at h; exact absurd h (by simp)
        | ok p =>
          obtain ⟨stx, outx⟩ := p
          simp only [hof] at h
          injection h with h1
          subst h1
          have hg2 : aget (setMsg st sid (some ka)).info sid =
              some { i with httpMessage := some ka } := by
            show aget (updInfo st.info sid (fun j => { j with httpMessage := some ka }))
              sid = _
            rw [aget_updInfo_self, hgi0]
            rfl
          have hInv1 : Inv (setMsg st sid (some ka)) :=
            inv_updInfo_safe st sid _ (fun j => rfl) (fun j hh => hh) (fun j hh => hh)
              (fun j hh => hh) hInv
          exact inv_onFree cfg (setMsg st sid (some ka)) sid i.destroyed (some ka)
            i.key connOk stx outx { i with httpMessage := some ka } hg2 rfl hgd.2 rfl
            hgd.1 hInv1 hof
      · rw [if_neg hgd] at h
        exact absurd h (by simp)
  | remoteDestroy sid =>
    simp only [stepFn] at h
    cases hgi0 : aget st.info sid with
    | none => rw [hgi0] at h; exact absurd h (by simp)
    | some i =>
      simp only [hgi0] at h
      by_cases hd : i.destroyed = true
      · rw [if_pos hd] at h
        exact absurd h (by simp)
      · rw [if_neg hd] at h
        injection h with h1
        subst h1
        exact inv_setDestroyed_true st sid hInv.1 hInv.2.1 hInv.2.2.1 hInv.2.2.2.1
          (fun sid2 j hne hgj h1 h2 h3 => hInv.2.2.2.2 sid2 j hgj h1 h2 h3)
  | closeEvt sid connOk =>
    simp only [stepFn] at h
    cases hgi0 : aget st.info sid with
    | none => rw [hgi0] at h; exact absurd h (by simp)
    | some i =>
      simp only [hgi0] at h
      by_cases hgd : i.destroyed = true ∧ ¬i.closed = true ∧ i.hookedClose = true
      · rw [if_pos hgd] at h
        cases hrm : removeSocket (setClosed st sid true) sid true i.key connOk with
        | error e => simp only [hrm] at h; exact absurd h (by simp)
        | ok p =>
          obtain ⟨stR, rep⟩ := p
          simp only [hrm] at h
          injection h with h1
          subst h1
          have hInvC : Inv (setClosed st sid true) :=
            inv_updInfo_safe st sid _ (fun j => rfl) (fun j hh => hh) (fun j hh => hh)
              (fun j hh => hh) hInv
          obtain ⟨hA2, hB2, hC2, hD2, hEx, hpres⟩ :=
            inv_removeSocket (setClosed st sid true) sid true i.key connOk stR rep
              hInvC hrm
          refine ⟨hA2, hB2, hC2, hD2, ?_⟩
          intro sid2 j hgj h1 h2 h3
          by_cases hs : sid2 = sid
          · subst hs
            have hlt : sid2 < (setClosed st sid2 true).nextSid :=
              hInv.2.2.1.2 sid2 i hgi0
            have hpr := hpres sid2 hlt
            rw [hgj] at hpr
            have hgc : aget (setClosed st sid2 true).info sid2 =
                some { i with closed := true } := by
              show aget (updInfo st.info sid2 (fun j => { j with closed := true }))
                sid2 = _
              rw [aget_updInfo_self, hgi0]
              rfl
            rw [hgc] at hpr
            injection hpr with he
            rw [he] at h2
            have h2b : i.destroyed = false := h2
            rw [hgd.1] at h2b
            exact absurd h2b (by simp)
          · exact hEx sid2 j hs hgj h1 h2 h3
      · rw [if_neg hgd] at h
        exact absurd h (by simp)
  | agentRemoveEvt sid connOk =>
    simp only [stepFn] at h
    cases hgi0 : aget st.info sid with
    | none => rw [hgi0] at h; exact absurd h (by simp)
    | some i =>
      simp only [hgi0] at h
      by_cases hgd : i.hookedAgentRemove = true
      · rw [if_pos hgd] at h
        cases har : onAgentRemove st sid i.destroyed i.key connOk with
        | error e => simp only [har] at h; exact absurd h (by simp)
        | ok stR =>
          simp only [har] at h
          injection h with h1
          subst h1
          exact inv_onAgentRemove st sid i.destroyed i.key connOk stR hInv har
      · rw [if_neg hgd] at h
        exact absurd h (by simp)
  | tunnelErrEvt sid =>
    simp only [stepFn] at h
    cases hgi0 : aget st.info sid with
    | none => rw [hgi0] at h; exact absurd h (by simp)
    | some i =>
      simp only [hgi0] at h
      by_cases hgd : i.hookedTunnelError = true
      · rw [if_pos hgd] at h
        cases hte : onTunnelErrorAgent st i.key with
        | error e => simp only [hte] at h; exact absurd h (by simp)
        | ok p =>
          obtain ⟨stR, r⟩ := p
          simp only [hte] at h
          injection h with h1
          subst h1
          exact inv_onTunnelErrorAgent st i.key stR r hInv hte
      · rw [if_neg hgd] at h
        exact absurd h (by simp)
  | destroyAll =>
    simp only [stepFn] at h
    injection h with h1
    subst h1
    exact inv_destroyAgent st hInv

/-- Every reachable pool state satisfies the invariant. -/
theorem inv_reachable (cfg : Config) (st : SysState) (h : Reachable cfg st) :
    Inv st := by
  induction h with
  | init => exact inv_init
  | step op hr hstep ih => exact inv_step cfg op _ _ ih hstep

end Yakaa

namespace Yakaa

theorem withinMax_mono (a b : Nat) (o : Option Nat) (hab : a ≤ b)
    (h : withinMax b o) : withinMax a o := by
  cases o with
  | none => trivial
  | some m => exact le_trans hab h

theorem withinMax_of_ltMax (n : Nat) (o : Option Nat) (h : ltMax n o = true) :
    withinMax (n + 1) o := by
  cases o with
  | none => trivial
  | some m =>
    simp only [ltMax, decide_eq_true_eq] at h
    exact Nat.succ_le_of_lt h

theorem withinMax_of_not_gtMax (n : Nat) (o : Option Nat) (h : ¬gtMax n o = true) :
    withinMax n o := by
  cases o with
  | none => trivial
  | some m =>
    simp only [gtMax, decide_eq_true_eq] at h
    exact Nat.le_of_not_lt h

/-- `removeSocket` never grows the per-key connection count, provided the
socket really is in the busy list whenever a replacement is created. -/
theorem removeSocket_count (st : SysState) (sid : Nat) (b : Bool) (k : Key)
    (connOk : Bool) (st2 : SysState) (rep : Option (Nat × Nat))
    (h : removeSocket st sid b k connOk = .ok (st2, rep))
    (hside : sid ∈ jgetL st.sockets k ∨ jgetL st.requests k = []) :
    ∀ k2, (jgetL st2.sockets k2).length + (jgetL st2.freeSockets k2).length ≤
      (jgetL st.sockets k2).length + (jgetL st.freeSockets k2).length := by
  have hbs : ∀ k2, (jgetL (spliceMap st.sockets k sid) k2).length ≤
      (jgetL st.sockets k2).length := by
    intro k2
    by_cases hk : k2 = k
    · subst hk; rw [jgetL_spliceMap_self]; exact (List.erase_sublist _ _).length_le
    · rw [jgetL_spliceMap_ne _ _ _ _ hk]
  have hfs : ∀ k2, (jgetL (if b = true then spliceMap st.freeSockets k sid
      else st.freeSockets) k2).length ≤ (jgetL st.freeSockets k2).length := by
    intro k2
    cases b
    · exact le_refl _
    · rw [if_pos rfl]
      by_cases hk : k2 = k
      · subst hk; rw [jgetL_spliceMap_self]; exact (List.erase_sublist _ _).length_le
      · rw [jgetL_spliceMap_ne _ _ _ _ hk]
  unfold removeSocket at h
  cases hqm : jgetL st.requests k with
  | nil =>
    simp only [hqm] at h
    injection h with h1
    injection h1 with ha hb2
    subst ha
    intro k2
    exact Nat.add_le_add (hbs k2) (hfs k2)
  | cons r rs =>
    simp only [hqm] at h
    cases connOk
    · exact absurd h (by simp)
    · simp only [if_true] at h
      injection h with h1
      injection h1 with ha hb2
      subst ha
      have hmem : sid ∈ jgetL st.sockets k := by
        rcases hside with hm | hq
        · exact hm
        · rw [hq] at hqm
          exact absurd hqm (by simp)
      intro k2
      dsimp only [setHeld]
      by_cases hk : k2 = k
      · subst hk
        rw [jgetL_pushMap_self, jgetL_spliceMap_self]
        have hlen := List.length_erase_of_mem hmem
        have hpos := List.length_pos_of_mem hmem
        have hfl := hfs k2
        rw [List.length_append, List.length_singleton, hlen]
        omega
      · rw [jgetL_pushMap_ne _ _ _ _ hk, jgetL_spliceMap_ne _ _ _ _ hk]
        exact Nat.add_le_add (le_refl _) (hfs k2)

theorem cap_freeDestroyPath (cfg : Config) (st : SysState) (sid : Nat)
    (sdestroyed : Bool) (k : Key) (connOk : Bool) (st2 : SysState) (out : RelOutcome)
    (hside : sid ∈ jgetL st.sockets k ∨ jgetL st.requests k = [])
    (hcap : capOK cfg st)
    (h : freeDestroyPath st sid sdestroyed k connOk = .ok (st2, out)) :
    capOK cfg st2 := by
  unfold freeDestroyPath at h
  cases hrm : removeSocket st sid sdestroyed k connOk with
  | error e =>
    rw [hrm] at h
    exact absurd h (by simp)
  | ok p =>
    obtain ⟨st1, rep⟩ := p
    rw [hrm] at h
    injection h with h1
    injection h1 with ha hb
    subst ha
    intro k2
    exact withinMax_mono _ _ _
      (removeSocket_count st sid sdestroyed k connOk st1 rep hrm hside k2) (hcap k2)

/-- `addRequest` preserves the per-key capacity bound. -/
theorem cap_addRequest (cfg : Config) (st : SysState) (k : Key) (connOk : Bool)
    (hcap : capOK cfg st) : capOK cfg (addRequest cfg st k connOk).1 := by
  have hens : ∀ k2, jgetL (if (aget st.sockets k).isNone then aset st.sockets k []
      else st.sockets) k2 = jgetL st.sockets k2 := by
    intro k2
    by_cases hk : k2 = k
    · rw [hk]; exact jgetL_ensure_self _ _
    · exact jgetL_ensure_ne _ _ _ hk
  cases hfl : jgetL st.freeSockets k with
  | nil =>
    unfold addRequest
    simp only [hfl]
    by_cases hlim : ltMax (([] : List Nat).length +
        (jgetL (if (aget st.sockets k).isNone then aset st.sockets k []
          else st.sockets) k).length) cfg.maxSockets = true
    · rw [if_pos hlim]
      cases connOk with
      | true =>
        rw [if_pos rfl]
        intro k2
        dsimp only [setHeld]
        by_cases hk : k2 = k
        · subst hk
          rw [jgetL_pushMap_self]
          refine withinMax_mono _ _ _ ?_ (withinMax_of_ltMax _ _ hlim)
          rw [List.length_append, hens, hfl]
          simp only [List.length_nil, List.length_singleton, hens]
          omega
        · rw [jgetL_pushMap_ne _ _ _ _ hk, hens]
          exact hcap k2
      | false =>
        rw [if_neg (by simp)]
        intro k2
        dsimp only
        rw [hens]
        exact hcap k2
    · rw [if_neg hlim]
      intro k2
      dsimp only
      rw [hens]
      exact hcap k2
  | cons s rest =>
    unfold addRequest
    simp only [hfl]
    intro k2
    dsimp only [setHeld]
    by_cases hk : k2 = k
    · subst hk
      rw [jgetL_pushMap_self, hens]
      have hfv : jgetL (if rest = [] then adel st.freeSockets k2
          else aset st.freeSockets k2 rest) k2 = rest := by
        by_cases hr : rest = []
        · rw [if_pos hr, jgetL_adel_self, hr]
        · rw [if_neg hr, jgetL_aset_self]
      rw [hfv]
      have hck := hcap k2
      rw [hfl] at hck
      refine withinMax_mono _ _ _ ?_ hck
      rw [List.length_append, List.length_singleton, List.length_cons]
      omega
    · have hfv : jgetL (if rest = [] then adel st.freeSockets k
          else aset st.freeSockets k rest) k2 = jgetL st.freeSockets k2 := by
        by_cases hr : rest = []
        · rw [if_pos hr, jgetL_adel_ne _ _ _ hk]
        · rw [if_neg hr, jgetL_aset_ne _ _ _ _ hk]
      rw [jgetL_pushMap_ne _ _ _ _ hk, hens, hfv]
      exact hcap k2

/-- The `free` handler preserves the per-key capacity bound, given that the
released socket is still filed as busy whenever its key has queued
requests. -/
theorem cap_onFree (cfg : Config) (st : SysState) (sid : Nat) (sdestroyed : Bool)
    (msg : Option Bool) (k : Key) (connOk : Bool) (st2 : SysState) (out : RelOutcome)
    (i : SockInfo)
    (hg : aget st.info sid = some i) (hkey : i.key = k)
    (hheld : i.held = true) (hdest : sdestroyed = i.destroyed)
    (hhook : i.hookedFree = true)
    (hInv : Inv st)
    (hside : sid ∈ jgetL st.sockets k ∨ jgetL st.requests k = [])
    (hcap : capOK cfg st)
    (h : onFree cfg st sid sdestroyed msg k connOk = .ok (st2, out)) :
    capOK cfg st2 := by
  unfold onFree at h
  split at h
  · split at h
    · injection h with h1
      injection h1 with ha hb
      subst ha
      exact hcap
    · injection h with h1
      injection h1 with ha hb
      subst ha
      intro k2
      exact hcap k2
  · rename_i hcond
    split at h
    · rename_i ka hmsg
      split at h
      · rename_i hka
        have hsf : sdestroyed = false := by
          cases sdestroyed
          · rfl
          · exact absurd rfl hka.2.1
        subst hsf
        have hq : jgetL st.requests k = [] := by
          by_contra hne
          exact hcond ⟨by simp, hne⟩
        have hrm := removeSocket_queueEmpty (setMsg (setHeld { st with
            freeSockets := aset st.freeSockets k (jgetL st.freeSockets k) } sid false)
            sid none) sid false k connOk hq
        simp only [hrm, Bool.false_eq_true, if_false] at h
        split at h
        · exact cap_freeDestroyPath cfg st sid false k connOk st2 out hside hcap h
        · injection h with h1
          injection h1 with ha hb
          subst ha
          have hdf : i.destroyed = false := hdest.symm
          have hmem : sid ∈ jgetL st.sockets k := by
            have hx := hInv.2.2.2.2 sid i hg hheld hdf hhook
            rwa [hkey] at hx
          have hbk : ∀ k3, jgetL (spliceMap st.sockets k sid) k3 =
              if k3 = k then (jgetL st.sockets k).erase sid
              else jgetL st.sockets k3 := by
            intro k3
            by_cases hk3 : k3 = k
            · rw [if_pos hk3, hk3, jgetL_spliceMap_self]
            · rw [if_neg hk3, jgetL_spliceMap_ne _ _ _ _ hk3]
          have hfk : ∀ k3, jgetL (aset (aset st.freeSockets k
              (jgetL st.freeSockets k)) k (jgetL st.freeSockets k ++ [sid])) k3 =
              if k3 = k then jgetL st.freeSockets k ++ [sid]
              else jgetL st.freeSockets k3 := by
            intro k3
            by_cases hk3 : k3 = k
            · rw [if_pos hk3, hk3]
              exact jgetL_aset_self _ _ _
            · rw [if_neg hk3, jgetL_aset_ne _ _ _ _ hk3, jgetL_aset_ne _ _ _ _ hk3]
          intro k2
          dsimp only [setMsg, setHeld]
          rw [hbk, hfk]
          by_cases hk2 : k2 = k
          · rw [if_pos hk2, if_pos hk2]
            have hck := hcap k
            have hlen := List.length_erase_of_mem hmem
            have hpos := List.length_pos_of_mem hmem
            refine withinMax_mono _ _ _ ?_ hck
            rw [hlen, List.length_append, List.length_singleton]
            omega
          · rw [if_neg hk2, if_neg hk2]
            exact hcap k2
      · exact cap_freeDestroyPath cfg st sid sdestroyed k connOk st2 out hside hcap h
    · exact cap_freeDestroyPath cfg st sid sdestroyed k connOk st2 out hside hcap h

/-- Outside the stale-replacement anomaly, every event preserves the per-key
capacity bound `|busy| + |free| ≤ maxSockets`. -/
theorem cap_step (cfg : Config) (op : Op) (st st2 : SysState)
    (hInv : Inv st) (hcap : capOK cfg st) (hns : ¬staleReplacement st op)
    (h : stepFn cfg op st = some st2) : capOK cfg st2 := by
  cases op with
  | acquire k connOk =>
    simp only [stepFn] at h
    injection h with h1
    subst h1
    exact cap_addRequest cfg st k connOk hcap
  | finish sid ka connOk =>
    simp only [stepFn] at h
    cases hgi0 : aget st.info sid with
    | none => rw [hgi0] at h; exact absurd h (by simp)
    | some i =>
      simp only [hgi0] at h
      simp only [staleReplacement, hgi0] at hns
      have hside : sid ∈ jgetL st.sockets i.key ∨ jgetL st.requests i.key = [] := by
        by_contra hcon
        push_neg at hcon
        exact hns ⟨hcon.1, hcon.2⟩
      by_cases hgd : i.hookedFree = true ∧ i.held = true
      · rw [if_pos hgd] at h
        cases hof : onFree cfg (setMsg st sid (some ka)) sid i.destroyed (some ka)
            i.key connOk with
        | error e => simp only [hof] at h; exact absurd h (by simp)
        | ok p =>
          obtain ⟨stx, outx⟩ := p
          simp only [hof] at h
          injection h with h1
          subst h1
          have hg2 : aget (setMsg st sid (some ka)).info sid =
              some { i with httpMessage := some ka } := by
            show aget (updInfo st.info sid (fun j => { j with httpMessage := some ka }))
              sid = _
            rw [aget_updInfo_self, hgi0]
            rfl
          have hInv1 : Inv (setMsg st sid (some ka)) :=
            inv_updInfo_safe st sid _ (fun j => rfl) (fun j hh => hh) (fun j hh => hh)
              (fun j hh => hh) hInv
          exact cap_onFree cfg (setMsg st sid (some ka)) sid i.destroyed (some ka)
            i.key connOk stx outx { i with httpMessage := some ka } hg2 rfl hgd.2 rfl
            hgd.1 hInv1 hside hcap hof
      · rw [if_neg hgd] at h
        exact absurd h (by simp)
  | remoteDestroy sid =>
    simp only [stepFn] at h
    cases hgi0 : aget st.info sid with
    | none => rw [hgi0] at h; exact absurd h (by simp)
    | some i =>
      simp only [hgi0] at h
      by_cases hd : i.destroyed = true
      · rw [if_pos hd] at h
        exact absurd h (by simp)
      · rw [if_neg hd] at h
        injection h with h1
        subst h1
        exact hcap
  | closeEvt sid connOk =>
    simp only [stepFn] at h
    cases hgi0 : aget st.info sid with
    | none => rw [hgi0] at h; exact absurd h (by simp)
    | some i =>
      simp only [hgi0] at h
      simp only [staleReplacement, hgi0] at hns
      have hside : sid ∈ jgetL st.sockets i.key ∨ jgetL st.requests i.key = [] := by
        by_contra hcon
        push_neg at hcon
        exact hns ⟨hcon.1, hcon.2⟩
      by_cases hgd : i.destroyed = true ∧ ¬i.closed = true ∧ i.hookedClose = true
      · rw [if_pos hgd] at h
        cases hrm : removeSocket (setClosed st sid true) sid true i.key connOk with
        | error e => simp only [hrm] at h; exact absurd h (by simp)
        | ok p =>
          obtain ⟨stR, rep⟩ := p
          simp only [hrm] at h
          injection h with h1
          subst h1
          intro k2
          exact withinMax_mono _ _ _
            (removeSocket_count (setClosed st sid true) sid true i.key connOk stR rep
              hrm hside k2) (hcap k2)
      · rw [if_neg hgd] at h
        exact absurd h (by simp)
  | agentRemoveEvt sid connOk =>
    simp only [stepFn] at h
    cases hgi0 : aget st.info sid with
    | none => rw [hgi0] at h; exact absurd h (by simp)
    | some i =>
      simp only [hgi0] at h
      simp only [staleReplacement, hgi0] at hns
      have hside : sid ∈ jgetL st.sockets i.key ∨ jgetL st.requests i.key = [] := by
        by_contra hcon
        push_neg at hcon
        exact hns ⟨hcon.1, hcon.2⟩
      by_cases hgd : i.hookedAgentRemove = true
      · rw [if_pos hgd] at h
        cases har : onAgentRemove st sid i.destroyed i.key connOk with
        | error e => simp only [har] at h; exact absurd h (by simp)
        | ok stR =>
          simp only [har] at h
          injection h with h1
          subst h1
          unfold onAgentRemove at har
          cases hrm : removeSocket st sid i.destroyed i.key connOk with
          | error e =>
            rw [hrm] at har
            exact absurd har (by simp)
          | ok p =>
            obtain ⟨stQ, rep⟩ := p
            rw [hrm] at har
            injection har with har1
            subst har1
            intro k2
            exact withinMax_mono _ _ _
              (removeSocket_count st sid i.destroyed i.key connOk stQ rep hrm
                hside k2) (hcap k2)
      · rw [if_neg hgd] at h
        exact absurd h (by simp)
  | tunnelErrEvt sid =>
    simp only [stepFn] at h
    cases hgi0 : aget st.info sid with
    | none => rw [hgi0] at h; exact absurd h (by simp)
    | some i =>
      simp only [hgi0] at h
      by_cases hgd : i.hookedTunnelError = true
      · rw [if_pos hgd] at h
        cases hte : onTunnelErrorAgent st i.key with
        | error e => simp only [hte] at h; exact absurd h (by simp)
        | ok p =>
          obtain ⟨stR, r⟩ := p
          simp only [hte] at h
          injection h with h1
          subst h1
          unfold onTunnelErrorAgent at hte
          split at hte
          · exact absurd hte (by simp)
          · split at hte
            · injection hte with hte1
              injection hte1 with hta htb
              subst hta
              exact hcap
            · injection hte with hte1
              injection hte1 with hta htb
              subst hta
              intro k2
              exact hcap k2
      · rw [if_neg hgd] at h
        exact absurd h (by simp)
  | destroyAll =>
    simp only [stepFn] at h
    injection h with h1
    subst h1
    exact hcap

end Yakaa

namespace Yakaa

theorem reachable_runOps (cfg : Config) (ops : List Op) (st st2 : SysState)
    (h : runOps cfg ops st = some st2) (hr : Reachable cfg st) :
    Reachable cfg st2 := by
  induction ops generalizing st with
  | nil =>
    injection h with h1
    subst h1
    exact hr
  | cons op rest ih =>
    simp only [runOps] at h
    cases hs : stepFn cfg op st with
    | none => rw [hs] at h; exact absurd h (by simp)
    | some stm =>
      simp only [hs] at h
      exact ih stm h (Reachable.step op hr hs)

/-- Refutation input for C2 as stated: with `maxSockets = 1`, after the
trace `c2ops` (two acquisitions, remote destroy and close of socket 0 — whose
close replaces it with busy socket 1 — a third, queued acquisition, and then
the stale release of the long-removed socket 0) the key `"h"` holds two busy
connections, exceeding the bound although acquisitions have completed. -/
theorem C2_counterexample : ¬C2stated := by
  intro hC
  have hrun : runOps cfgOne c2ops initState = some c2final := rfl
  have hreach := reachable_runOps cfgOne c2ops initState c2final hrun Reachable.init
  have h2 := (hC cfgOne c2final (by decide) hreach "h").2 (by decide)
  exact absurd h2 (by decide)

/-- C2 (amended): at every reachable state the busy and free collections of
every destination key are disjoint; and the per-key bound
`|busy| + |free| ≤ maxSockets` is preserved by every event except a stale
release — a `free`/`close`/`agentRemove` event processed for a connection
that is no longer in the busy list of its key while requests are queued
there, which makes `removeSocket` create a replacement without having
removed anything (the claim's unconditional capacity half is refuted by
`C2_counterexample`). -/
theorem pool_disjoint_and_guarded_capacity :
    (∀ cfg st, Reachable cfg st → ∀ k sid,
      sid ∈ jgetL st.sockets k → sid ∉ jgetL st.freeSockets k) ∧
    (∀ cfg op st st2, Reachable cfg st → capOK cfg st → ¬staleReplacement st op →
      stepFn cfg op st = some st2 → capOK cfg st2) := by
  constructor
  · intro cfg st hr k sid hmem hmf
    have hInv := inv_reachable cfg st hr
    exact (List.nodup_append.mp (hInv.1 k)).2.2 hmem hmf
  · intro cfg op st st2 hr hcap hns h
    exact cap_step cfg op st st2 (inv_reachable cfg st hr) hcap hns h

theorem pool_disjoint_and_guarded_capacity_witness :
    (0 ∉ jgetL (addRequest cfgOne initState "h" true).1.freeSockets "h") ∧
    capOK cfgOne (addRequest cfgOne initState "h" true).1 :=
  ⟨pool_disjoint_and_guarded_capacity.1 cfgOne (addRequest cfgOne initState "h" true).1
    (Reachable.step (Op.acquire "h" true) Reachable.init rfl) "h" 0 (by decide),
   pool_disjoint_and_guarded_capacity.2 cfgOne (Op.acquire "h" true) initState
    (addRequest cfgOne initState "h" true).1 Reachable.init
    (fun k => Nat.zero_le 1) (fun hf => hf) rfl⟩

end Yakaa
